import Mathlib

/-!
# A verification development for the PyFOPPL-2 compiler front end

This file gives a shallow embedding, in Lean 4, of the parts of the
PyFOPPL-2 sources (a compiler front end for a first-order probabilistic
programming language) that its design documentation makes claims about,
together with theorems settling those claims.

Conventions used throughout:

* Python machine integers are unbounded, so they are modelled by `Int`/`Nat`.
* Python floats are modelled by `Rat`; no claim below depends on IEEE-754
  rounding, only on the values `0`, `1`, `0.5` and exact decimal literals.
* Fallible Python code (code that can raise) is modelled with `Except`/`Option`.
* Methods that mutate an object are modelled as functions returning the
  updated object (explicit state passing).
* Python `is`-identity tests on rebuilt AST nodes are modelled by structural
  equality; the sources use them only to avoid re-allocating an unchanged
  node, so the resulting value is the same either way.
-/

set_option maxRecDepth 10000
set_option linter.unusedVariables false

/-! ## Python literal values (`ppl_ast.py`)

`AstValue` in `ppl_ast.py` holds a literal of type bool, complex, float,
int or str.  Complex literals are used by no claim and are omitted from
the fragment; floats are exact rationals (see the header).  `pnone`
models Python `None`, which the sources also store in AST values. -/

inductive PyVal where
  | pbool (b : Bool)
  | pint (n : Int)
  | pfloat (q : Rat)
  | pstr (s : String)
  | pnone
deriving DecidableEq, Repr

/-! ## The pyppl AST fragment (`ppl_ast.py`)

The constructors mirror the `Ast...` classes of `pyppl/ppl_ast.py` that the
claims touch: `AstValue`, `AstValueVector` (flat literal vectors),
`AstSymbol`, `AstBinary`, `AstUnary`, `AstCompare`, `AstIf`, `AstDef`,
`AstBody`, `AstCall` and `AstAttribute`.

`AstSymbol` carries a `prot` flag: the optimizer (`ppl_optimizers.py`)
reads `node.protected` on symbols.  The copy of `ppl_ast.py` in the
sources predates that attribute, so the flag is modelled from the spec
(symbols carry a read-only/"protected" marker; it defaults to false and
nothing in the analysed fragment sets it).

For `AstCompare` the fields are exactly those assigned by
`AstCompare.__init__`: note that the source assigns `self.second_op = op`,
so the field is an (always present) operator string wrapped in `Option`
to reflect its declared type `Optional[str]`. -/

inductive PAst where
  | value (v : PyVal)
  | valueVector (items : List PyVal)
  | symbol (name : String) (prot : Bool)
  | binary (left : PAst) (op : String) (right : PAst)
  | unary (op : String) (item : PAst)
  | compare (left : PAst) (op : String) (right : PAst)
      (secondOp : Option String) (secondRight : Option PAst)
  | ifA (test : PAst) (ifNode : PAst) (elseNode : Option PAst)
  | defA (name : String) (value : PAst)
  | body (items : List PAst)
  | call (function : PAst) (args : List PAst)
  | attribute (base : PAst) (attr : String)
deriving Repr

/-- The comparison operators accepted by `AstCompare.__init__`
(the keys of its `__cmp_ops` table). -/
def cmp_ops : List String :=
  ["==", "!=", "<", "<=", ">", ">=", "is", "in", "is not", "not in"]

/-- `AstCompare.__init__` (`pyppl/ppl_ast.py`, lines 416-428).
`=` is normalised to `==` first; then the fields are assigned.  The
source assigns `self.second_op = op` — the *first* operator — rather
than the `second_op` argument.  The two `assert` statements of the
constructor are modelled by returning `none` (an `AssertionError`)
when they fail. -/
def mkAstCompare (left : PAst) (op : String) (right : PAst)
    (secondOp : Option String) (secondRight : Option PAst) : Option PAst :=
  let op := if op = "=" then "==" else op
  if cmp_ops.contains op &&
      ((secondOp.isNone && secondRight.isNone) ||
        ((match secondOp with
          | some s => cmp_ops.contains s
          | none => false) && secondRight.isSome)) then
    some (PAst.compare left op right (some op) secondRight)
  else
    none

/-- Projection of the `second_op` field of an `AstCompare` node. -/
def PAst.getSecondOp : PAst → Option String
  | .compare _ _ _ s _ => s
  | _ => none

/-! ## The lexer category table (`pyppl/lexer.py`) -/

/-- `CatCode` (`pyppl/lexer.py`): the category of an input character. -/
inductive CatCode where
  | invalid
  | ignore
  | whitespace
  | alpha
  | numeric
  | symbol
  | delimiter
  | leftBracket
  | rightBracket
  | newline
  | stringDelimiter
  | escape
  | lineComment
deriving DecidableEq, Repr

/-- `CategoryCodes.__init__` (`pyppl/lexer.py`): a table of 128 category
codes, all `INVALID` except the assignments made in the constructor
(tab/newline/return/space, `_`, the printable ASCII ranges, brackets and
the two string delimiters), applied in source order. -/
def defaultCatcodes : List CatCode :=
  let t := List.replicate 128 CatCode.invalid
  let t := t.set 9 CatCode.whitespace
  let t := t.set 10 CatCode.newline
  let t := t.set 13 CatCode.whitespace
  let t := t.set 32 CatCode.whitespace
  let t := t.set 95 CatCode.alpha
  let t := (List.range' 33 32).foldl (fun t i => t.set i CatCode.symbol) t
  let t := (List.range' 48 10).foldl (fun t i => t.set i CatCode.numeric) t
  let t := (List.range' 65 26).foldl (fun t i => t.set i CatCode.alpha) t
  let t := (List.range' 97 26).foldl (fun t i => t.set i CatCode.alpha) t
  let t := [40, 91, 123].foldl (fun t i => t.set i CatCode.leftBracket) t
  let t := [41, 93, 125].foldl (fun t i => t.set i CatCode.rightBracket) t
  [39, 34].foldl (fun t i => t.set i CatCode.stringDelimiter) t

/-- A key passed to `CategoryCodes.__setitem__`/`__getitem__`: a string, an
integer, or anything else (for instance the tuples the Clojure lexer
passes); `strK` covers strings of every length. -/
inductive CCKey where
  | strK (s : String)
  | intK (n : Int)
  | otherK
deriving DecidableEq, Repr

/-- `CategoryCodes.__setitem__` (`pyppl/lexer.py`, lines 75-79).  The body
normalises a one-character string key to its code, raises `TypeError` for
every other invalid key — and then ends: no assignment to the table is
ever made, so a successful call returns the table unchanged. -/
def ccSetitem (t : List CatCode) (key : CCKey) (_value : CatCode) :
    Except String (List CatCode) :=
  match key with
  | .strK s => if s.length = 1 then .ok t else .error "TypeError"
  | .intK n => if 0 ≤ n ∧ n < (t.length : Int) then .ok t else .error "TypeError"
  | .otherK => .error "TypeError"

/-- A client reconfiguration: a sequence of `table[key] = value` statements,
applied in order; a raising call leaves the table as it was. -/
def ccApplyAll (t : List CatCode) (updates : List (CCKey × CatCode)) : List CatCode :=
  updates.foldl
    (fun t kv =>
      match ccSetitem t kv.1 kv.2 with
      | .ok r => r
      | .error _ => t) t

/-! ## The character stream (`pyppl/lexer.py`, class `CharacterStream`)

The stream holds the source text and a current position.  The position is
an `Int` because Python integers are signed and `skip` performs unguarded
arithmetic on the position. -/

structure CharStream where
  source : List Char
  pos : Int
deriving DecidableEq, Repr

/-- The default character `'\u0000'` returned for out-of-range access. -/
def nulChar : Char := Char.ofNat 0

/-- Python sequence indexing `s[i]` as used with a plain (possibly
negative) index inside `CharacterStream`: non-negative indices from the
front, negative indices from the back.  An index out of range raises
`IndexError` in Python; no claim evaluates the sources there, and the
model returns the default character in that case. -/
def pyCharAt (l : List Char) (i : Int) : Char :=
  if 0 ≤ i then l.getD i.toNat nulChar
  else l.getD (l.length + i).toNat nulChar

/-- Python slicing `s[a:b]` on a list of characters (with clamping). -/
def pySlice (l : List Char) (a b : Int) : List Char :=
  let n : Int := l.length
  let a := if a < 0 then max 0 (n + a) else min a n
  let b := if b < 0 then max 0 (n + b) else min b n
  ((l.drop a.toNat).take (b - a).toNat)

/-- `CharacterStream.__getitem__`: the character at `item`, or the default
character when `item` is out of range. -/
def csGet (s : CharStream) (item : Int) : Char :=
  if 0 ≤ item ∧ item < (s.source.length : Int) then
    s.source.getD item.toNat nulChar
  else nulChar

/-- `CharacterStream.peek(index)` = `self[self._pos + index]`. -/
def csPeek (s : CharStream) (index : Int) : Char :=
  csGet s (s.pos + index)

/-- `CharacterStream.current` = `self[self._pos]`. -/
def csCurrent (s : CharStream) : Char :=
  csGet s s.pos

/-- `CharacterStream.eof()`. -/
def csEof (s : CharStream) : Bool :=
  (s.source.length : Int) ≤ s.pos

/-- `CharacterStream.drop(count)`: only positive counts move the position,
clamped to the length. -/
def csDrop (s : CharStream) (count : Int) : CharStream :=
  if 0 < count then { s with pos := min (s.pos + count) (s.source.length : Int) }
  else s

/-- `CharacterStream.skip(count)`: `self._pos = min(len(source), self._pos + count)`
with no guard on the sign of `count`. -/
def csSkip (s : CharStream) (count : Int) : CharStream :=
  { s with pos := min (s.source.length : Int) (s.pos + count) }

/-- `CharacterStream.next()`: return the current character and advance,
or return the default character at the end. -/
def csNext (s : CharStream) : Char × CharStream :=
  if s.pos < (s.source.length : Int) then
    (pyCharAt s.source s.pos, { s with pos := s.pos + 1 })
  else (nulChar, s)

/-- The scanning loop shared by `drop_while`/`take_while`: starting from
`i`, advance while in range and the predicate holds, returning the final
index.  The loop advances the index towards the length, so the explicit
fuel `(length - i).toNat` used by `csScanEnd` below is always enough:
when it runs out the index is at or past the length and the source loop
would stop as well. -/
def csScanEndAux (src : List Char) (p : Char → Bool) : Nat → Int → Int
  | 0, i => i
  | fuel + 1, i =>
    if i < (src.length : Int) ∧ p (pyCharAt src i) then
      csScanEndAux src p fuel (i + 1)
    else i

/-- The final index of the `drop_while`/`take_while` loop from index `i`. -/
def csScanEnd (src : List Char) (p : Char → Bool) (i : Int) : Int :=
  csScanEndAux src p ((src.length : Int) - i).toNat i

/-- `CharacterStream.drop_while(p)`. -/
def csDropWhile (s : CharStream) (p : Char → Bool) : CharStream :=
  { s with pos := csScanEnd s.source p s.pos }

/-- `CharacterStream.take_while(p)`: the scanned slice, with the position
moved past it. -/
def csTakeWhile (s : CharStream) (p : Char → Bool) : List Char × CharStream :=
  let i := csScanEnd s.source p s.pos
  (pySlice s.source s.pos i, { s with pos := i })

/-- `CharacterStream.take(count)`. -/
def csTake (s : CharStream) (count : Int) : List Char × CharStream :=
  if 0 < count then
    (pySlice s.source s.pos (s.pos + count),
      { s with pos := min (s.source.length : Int) (s.pos + count) })
  else ([], s)

/-- `CharacterStream.take_if(p)`. -/
def csTakeIf (s : CharStream) (p : Char → Bool) : List Char × CharStream :=
  if s.pos < (s.source.length : Int) ∧ p (pyCharAt s.source s.pos) then
    ([pyCharAt s.source s.pos], { s with pos := s.pos + 1 })
  else ([], s)

/-- `CharacterStream.drop_if(p)`. -/
def csDropIf (s : CharStream) (p : Char → Bool) : Bool × CharStream :=
  if s.pos < (s.source.length : Int) ∧ p (pyCharAt s.source s.pos) then
    (true, { s with pos := s.pos + 1 })
  else (false, s)

/-- `CharacterStream.test(s)`: does the text at the current position start
with `t` (`False` for `None` or at the end)? -/
def csTest (s : CharStream) (t : Option (List Char)) : Bool :=
  match t with
  | none => false
  | some t =>
    if (s.source.length : Int) ≤ s.pos then false
    else if t.length = 1 then pyCharAt s.source s.pos = t.getD 0 nulChar
    else pySlice s.source s.pos (s.pos + t.length) = t

/-- The invariant maintained by a `CharacterStream` constructed from a
string: the position stays between 0 and the length. -/
def csInv (s : CharStream) : Prop :=
  0 ≤ s.pos ∧ s.pos ≤ (s.source.length : Int)

/-! ## The token iterator (`pyppl/lexer.py`, class `Lexer`) -/

/-- `TokenType` (`pyppl/lexer.py`). -/
inductive TokenType where
  | symbol
  | number
  | string
  | keyword
  | indent
  | dedent
  | leftBracket
  | rightBracket
  | newline
deriving DecidableEq, Repr

/-- The value slot of a token: a piece of source text for symbols, names,
strings and brackets, or the numeric value computed by `read_number`. -/
inductive TokVal where
  | tvStr (s : List Char)
  | tvInt (n : Int)
  | tvFloat (q : Rat)
deriving DecidableEq, Repr

/-- The ways `Lexer.__next__` can fail.

* `stopIteration` — the stream is exhausted (Python `StopIteration`).
* `invalidCharacter h c` — the `SyntaxError("invalid character in input
  stream: ...")` raised for an out-of-category character; its payload is
  built from `hex(ord(c))` and the character `c` itself, and from nothing
  else.
* `indexError` — the `IndexError` raised by `CategoryCodes.__getitem__`
  for a character beyond the 128-entry table.
* `valueError` — the `ValueError` raised by `int('')` when a base prefix
  like `0x` is followed by no digit.
* `outOfFuel` — an artefact of the embedding: the recursion of
  `__next__` is bounded by explicit fuel; every theorem below supplies
  enough fuel for this case never to be reached. -/
inductive LexErr where
  | stopIteration
  | invalidCharacter (hexCode : String) (ch : Char)
  | indexError
  | valueError
  | outOfFuel
deriving DecidableEq, Repr

/-- Python `hex` digit characters (lowercase). -/
def hexDigitChar (d : Nat) : Char :=
  if d < 10 then Char.ofNat (48 + d) else Char.ofNat (97 + (d - 10))

/-- The digits of `n` in base 16, most significant first (with explicit
fuel; `n + 1` is always enough since the argument shrinks by a factor of
16 each step). -/
def hexDigitsAux : Nat → Nat → List Char
  | 0, _ => []
  | fuel + 1, n =>
    if n < 16 then [hexDigitChar n]
    else hexDigitsAux fuel (n / 16) ++ [hexDigitChar (n % 16)]

/-- The digits of `n` in base 16, most significant first. -/
def hexDigits (n : Nat) : List Char :=
  hexDigitsAux (n + 1) n

/-- Python `hex(n)` for a non-negative `n`, e.g. `hex(7) = "0x7"`. -/
def pyHex (n : Nat) : String :=
  String.mk ('0' :: 'x' :: hexDigits n)

/-- The numeric value of a digit character in bases up to 16
(`0-9`, `A-F`, `a-f`), as used by Python `int(s, base)`. -/
def digitVal (c : Char) : Nat :=
  if '0' ≤ c ∧ c ≤ '9' then c.toNat - 48
  else if 'A' ≤ c ∧ c ≤ 'F' then c.toNat - 55
  else if 'a' ≤ c ∧ c ≤ 'f' then c.toNat - 87
  else 0

/-- Python `int(s, base)` on a non-empty string of valid digits. -/
def digitsToNat (base : Nat) (cs : List Char) : Nat :=
  cs.foldl (fun acc c => acc * base + digitVal c) 0

/-- Splits `cs` at the first occurrence of a character satisfying `p`;
the separator is dropped. -/
def splitAtChar (p : Char → Bool) (cs : List Char) : List Char × Option (List Char) :=
  match cs with
  | [] => ([], none)
  | c :: rest =>
    if p c then ([], some rest)
    else
      let (a, b) := splitAtChar p rest
      (c :: a, b)

/-- Python `float(s)` for the decimal strings built by `read_number`
(`digits [ '.' digits ] [ ('e'|'E') ['+'|'-'] digits ]`), as an exact
rational (see the header for the float convention). -/
def pyParseFloat (cs : List Char) : Rat :=
  let (mantissa, expPart) := splitAtChar (fun c => c = 'e' || c = 'E') cs
  let (intPart, fracPart) := splitAtChar (fun c => c = '.') mantissa
  let expVal : Int :=
    match expPart with
    | none => 0
    | some ('+' :: ds) => (digitsToNat 10 ds : Int)
    | some ('-' :: ds) => -(digitsToNat 10 ds : Int)
    | some ds => (digitsToNat 10 ds : Int)
  let frac : Rat :=
    match fracPart with
    | none => 0
    | some ds => (digitsToNat 10 ds : Rat) / (10 : Rat) ^ ds.length
  ((digitsToNat 10 intPart : Rat) + frac) * (10 : Rat) ^ expVal

/-- The lexer state (`Lexer.__init__`): the category table, the keyword
set, the extensible composite-symbol set and the comment delimiters. -/
structure Lexer where
  catcodes : List CatCode
  keywords : List (List Char)
  extSymbols : List (List Char)
  lineComment : Option (List Char)
  blockCommentStart : Option (List Char)
  blockCommentEnd : Option (List Char)
deriving Repr

/-- The `ext_symbols` set from `Lexer.__init__`.  The source contains a
missing comma between `'|='` and `'==='`, so Python concatenates the two
adjacent literals into the single element `"|===="` — the set therefore
does not contain `'|='` or `'==='`. -/
def defaultExtSymbols : List (List Char) :=
  [['+', '='], ['-', '='], ['*', '='], ['/', '='], ['%', '='],
   ['<', '='], ['>', '='], ['=', '='], ['!', '='],
   ['<', '<'], ['>', '>'], ['*', '*'], ['/', '/'],
   ['&', '&'], ['|', '|'], ['&', '='],
   ['|', '=', '=', '=', '='],
   ['<', '<', '='], ['>', '>', '='], ['*', '*', '='], ['/', '/', '='],
   ['.', '.'], ['.', '.', '.'],
   ['<', '~'], ['~', '>']]

/-- A `Lexer` as constructed by `Lexer.__init__` (before any client
configuration): default category table, no keywords, no comments. -/
def defaultLexer : Lexer :=
  { catcodes := defaultCatcodes
    keywords := []
    extSymbols := defaultExtSymbols
    lineComment := none
    blockCommentStart := none
    blockCommentEnd := none }

/-- `CategoryCodes.__getitem__` applied to a single character: the table
entry at `ord(c)`, or an `IndexError` when the code is beyond the table. -/
def catcodeOf (t : List CatCode) (c : Char) : Except LexErr CatCode :=
  if c.toNat < t.length then .ok (t.getD c.toNat CatCode.invalid)
  else .error .indexError

/-- The boolean test `self.catcodes[c] in cats` as used inside lexer
predicates.  (In Python the lookup itself can raise `IndexError` for a
character beyond the table; the predicates of the analysed claims are
never evaluated on such characters, and the model returns `false` there.) -/
def catIs (t : List CatCode) (cats : List CatCode) (c : Char) : Bool :=
  match catcodeOf t c with
  | .ok cc => cats.contains cc
  | .error _ => false

/-- The scanning loop of `Lexer.read_string`: starting from absolute
index `j`, advance past escaped characters until the delimiter, the
default character or the end of the text is reached, returning the final
absolute index.  (`peek(i)` returns `'\u0000'` beyond the end, which is
in the stop set, so the source loop stops there too.) -/
def readStringEndAux (src : List Char) (delim : Char) : Nat → Int → Int
  | 0, j => j
  | fuel + 1, j =>
    if 0 ≤ j ∧ j < (src.length : Int) then
      let c := src.getD j.toNat nulChar
      if c = delim ∨ c = nulChar then j
      else readStringEndAux src delim fuel (j + (if c = '\\' then 2 else 1))
    else j

/-- The final index of the `read_string` scan from index `j`; the index
advances towards the length, so fuel `(length - j).toNat` is always
enough (when it runs out the index is out of range, where the source
loop stops too, because `peek` yields the default character there). -/
def readStringEnd (src : List Char) (delim : Char) (j : Int) : Int :=
  readStringEndAux src delim ((src.length : Int) - j).toNat j

/-- `Lexer.read_string`. -/
def readString (s : CharStream) : List Char × CharStream :=
  let delim := csCurrent s
  let jEnd := readStringEnd s.source delim (s.pos + 1)
  let i := jEnd - s.pos
  let i := if csGet s jEnd = delim then i + 1 else i
  csTake s i

/-- `Lexer.read_symbol`: one symbol character, extended to a two- or
three-character composite when the extension is in `ext_symbols`. -/
def readSymbol (lx : Lexer) (s : CharStream) : List Char × CharStream :=
  let (r, s) := csNext s
  let nc := csCurrent s
  let pc := csPeek s 1
  if catIs lx.catcodes [CatCode.symbol] nc then
    if catIs lx.catcodes [CatCode.symbol] pc ∧
        lx.extSymbols.contains [r, nc, pc] then
      let (t, s) := csTake s 2
      (r :: t, s)
    else if lx.extSymbols.contains [r, nc] then
      let (c, s) := csNext s
      ([r, c], s)
    else ([r], s)
  else ([r], s)

/-- `Lexer.read_name`: the longest run of alpha/numeric characters. -/
def readName (lx : Lexer) (s : CharStream) : List Char × CharStream :=
  csTakeWhile s (catIs lx.catcodes [CatCode.alpha, CatCode.numeric])

/-- `Lexer.read_number`: base-prefixed integers (`0x`/`0o`/`0b`), plain
integers, and floats with fraction and exponent. -/
def readNumber (s : CharStream) : Except LexErr (TokVal × CharStream) :=
  if csCurrent s = '0' ∧
      (csPeek s 1 ∈ ['x', 'X', 'b', 'B', 'o', 'O']) then
    let base : Nat :=
      if csPeek s 1 = 'x' ∨ csPeek s 1 = 'X' then 16
      else if csPeek s 1 = 'o' ∨ csPeek s 1 = 'O' then 8
      else 2
    let isDigit : Char → Bool :=
      if base = 16 then
        fun c => ('0' ≤ c ∧ c ≤ '9') ∨ ('A' ≤ c ∧ c ≤ 'F') ∨ ('a' ≤ c ∧ c ≤ 'f')
      else if base = 8 then fun c => '0' ≤ c ∧ c ≤ '7'
      else fun c => c = '0' ∨ c = '1'
    let s := csDrop s 2
    let (result, s) := csTakeWhile s isDigit
    if result = [] then .error .valueError
    else .ok (.tvInt (digitsToNat base result), s)
  else
    let isDigit : Char → Bool := fun c => '0' ≤ c ∧ c ≤ '9'
    let (result, s) := csTakeWhile s isDigit
    let (result, s) :=
      if csCurrent s = '.' ∧ isDigit (csPeek s 1) then
        let (c, s) := csNext s
        let (ds, s) := csTakeWhile s isDigit
        (result ++ [c] ++ ds, s)
      else (result, s)
    let (result, s) :=
      if (csCurrent s = 'e' ∨ csCurrent s = 'E') ∧
          (isDigit (csPeek s 1) ∨
            ((csPeek s 1 = '+' ∨ csPeek s 1 = '-') ∧ isDigit (csPeek s 2))) then
        let (c, s) := csNext s
        let (sign, s) :=
          if csCurrent s = '+' ∨ csCurrent s = '-' then
            let (c2, s) := csNext s
            ([c2], s)
          else ([], s)
        let (ds, s) := csTakeWhile s isDigit
        (result ++ [c] ++ sign ++ ds, s)
      else (result, s)
    if result.all isDigit then .ok (.tvInt (digitsToNat 10 result), s)
    else .ok (.tvFloat (pyParseFloat result), s)

/-- The block-comment loop of `Lexer.__next__`:
`while not eof and not test(end): drop(1)`. -/
def skipBlockCommentAux (endTok : Option (List Char)) : Nat → CharStream → CharStream
  | 0, s => s
  | fuel + 1, s =>
    if ¬ csEof s ∧ ¬ csTest s endTok then
      skipBlockCommentAux endTok fuel (csDrop s 1)
    else s

/-- The block-comment loop with fuel `(length - pos).toNat`, which is
always enough: each iteration moves the position forward by one, and
with no fuel left the stream is at or past the end, where the source
loop stops too. -/
def skipBlockComment (s : CharStream) (endTok : Option (List Char)) : CharStream :=
  skipBlockCommentAux endTok ((s.source.length : Int) - s.pos).toNat s

/-- `Lexer.__next__` (`pyppl/lexer.py`, lines 243-303): skip comments,
ignored characters and whitespace, then dispatch on the category of the
current character; an `INVALID` category (and the final `else` branch)
raises the `SyntaxError` whose payload is built from `hex(ord(c))` and
the character.  The recursive self-calls of the source are bounded by
`fuel`. -/
def lexNext (lx : Lexer) : Nat → CharStream →
    Except LexErr ((Int × TokenType × TokVal) × CharStream)
  | 0, _ => .error .outOfFuel
  | fuel + 1, s =>
    let pos := s.pos
    if csEof s then .error .stopIteration
    else if csTest s lx.lineComment then
      lexNext lx fuel (csDropWhile s (fun c => !(c = '\n')))
    else if csTest s lx.blockCommentStart then
      let s := csDrop s ((lx.blockCommentStart.getD []).length : Int)
      lexNext lx fuel (skipBlockComment s lx.blockCommentEnd)
    else
      match catcodeOf lx.catcodes (csCurrent s) with
      | .error e => .error e
      | .ok cc =>
        if cc = CatCode.ignore then lexNext lx fuel (csDrop s 1)
        else if cc = CatCode.invalid then
          .error (.invalidCharacter (pyHex (csCurrent s).toNat) (csCurrent s))
        else if cc = CatCode.lineComment then
          lexNext lx fuel (csDropWhile s (fun c => !(c = '\n')))
        else if cc = CatCode.whitespace then
          lexNext lx fuel (csDropWhile s (catIs lx.catcodes [CatCode.whitespace]))
        else if cc = CatCode.stringDelimiter then
          let (str, s) := readString s
          .ok ((pos, TokenType.string, .tvStr str), s)
        else if cc = CatCode.symbol ∨ cc = CatCode.delimiter then
          let (sym, s) := readSymbol lx s
          .ok ((pos, TokenType.symbol, .tvStr sym), s)
        else if cc = CatCode.leftBracket ∨ cc = CatCode.rightBracket then
          let tt := if cc = CatCode.leftBracket then TokenType.leftBracket
                    else TokenType.rightBracket
          let (c, s) := csNext s
          .ok ((pos, tt, .tvStr [c]), s)
        else if ('0' ≤ csCurrent s ∧ csCurrent s ≤ '9') ∨ cc = CatCode.numeric then
          match readNumber s with
          | .error e => .error e
          | .ok (v, s) => .ok ((pos, TokenType.number, v), s)
        else if cc = CatCode.alpha then
          let (name, s) := readName lx s
          let tt := if lx.keywords.contains name then TokenType.keyword
                    else TokenType.symbol
          .ok ((pos, tt, .tvStr name), s)
        else if cc = CatCode.newline then
          let (c, s) := csNext s
          .ok ((pos, TokenType.newline, .tvStr [c]), s)
        else
          .error (.invalidCharacter (pyHex (csCurrent s).toNat) (csCurrent s))

/-! ## The Clojure surface reader (`pyppl/ppl_clojure_forms.py`,
`pyppl/ppl_clojure_parser.py`)

`ClojureObject` and its subclasses `Form`, `Symbol`, `Value` are the
s-expression representation produced by the Clojure lexer; `CljAst`
mirrors them (the `Vector` subclass is used by no claim). -/

inductive CljAst where
  | form (items : List CljAst)
  | symbol (name : String)
  | value (v : PyVal)
deriving Repr

/-- The arithmetic heads handled by the n-ary branch of
`ClojureParser.visit_form_form`. -/
def cljArithOps : List String :=
  ["+", "-", "*", "/", "and", "or", "bit-and", "bit-or", "bit-xor"]

/-- The comparison heads handled by `ClojureParser.visit_form_form`. -/
def cljCmpHeads : List String :=
  ["<", ">", "<=", ">=", "=", "!=", "==", "not="]

/-- The renaming of bit-operator heads performed by `visit_form_form`
(`if n == 'bit-and': n = '&'`, and so on). -/
def cljRenameOp (n : String) : String :=
  if n = "bit-and" then "&"
  else if n = "bit-or" then "|"
  else if n = "bit-xor" then "^"
  else n

/-- The translation of one Clojure object into the common AST, as
performed by `ClojureParser`'s `visit_symbol_form` / `visit_value_form` /
`visit_form_form` methods: symbols and values map to `AstSymbol` /
`AstValue`, and a form is dispatched on its head (`node.head` of an
empty form raises `IndexError`).

The form case is `ClojureParser.visit_form_form`
(`pyppl/ppl_clojure_parser.py`, lines 290-327): translate head and
arguments, then

* a one-argument `+`/`-`/`not` becomes `AstUnary`;
* an arithmetic head folds the arguments left into nested `AstBinary`
  nodes, with zero arguments giving the literal `0` for `+`/`-` and the
  literal `1` for every other operator of the group;
* a comparison head with exactly two arguments becomes `AstCompare`
  (via the `AstCompare` constructor), any other arity raises `TypeError`;
* a `.` head folds attribute accesses;
* everything else becomes a generic `AstCall`.

The structural recursion of the source is bounded by explicit fuel (any
fuel larger than the nesting depth suffices).  `cljFormRest` is the
dispatch of `visit_form_form` on the already-translated head and
arguments; `cljVisit` below performs the traversal. -/
def cljFormRest (function : PAst) (args : List PAst) : Except String PAst :=
  match function with
  | PAst.symbol n _ =>
    if (n = "+" ∨ n = "-" ∨ n = "not") ∧ args.length = 1 then
      .ok (PAst.unary n (args.getD 0 (PAst.value PyVal.pnone)))
    else if cljArithOps.contains n then
      let n := cljRenameOp n
      match args with
      | [] => .ok (PAst.value (PyVal.pint (if n = "+" ∨ n = "-" then 0 else 1)))
      | a :: rest => .ok (rest.foldl (fun acc x => PAst.binary acc n x) a)
    else if cljCmpHeads.contains n then
      let n := if n = "not=" then "!=" else n
      let n := if n = "=" then "==" else n
      match args with
      | [a, b] =>
        match mkAstCompare a n b none none with
        | some r => .ok r
        | none => .error "AssertionError"
      | _ => .error "TypeError"
    else if n = "." then
      if args.length < 2 then .error "TypeError"
      else
        match args with
        | a :: rest =>
          rest.foldlM
            (fun acc x =>
              match x with
              | PAst.symbol m _ => .ok (PAst.attribute acc m)
              | _ => .error "TypeError")
            a
        | [] => .error "TypeError"
    else .ok (PAst.call function args)
  | _ => .ok (PAst.call function args)

/-- See the doc comment above: the traversal itself. -/
def cljVisit : Nat → CljAst → Except String PAst
  | 0, _ => .error "out of fuel"
  | fuel + 1, node =>
    match node with
    | .symbol n => .ok (PAst.symbol n false)
    | .value v => .ok (PAst.value v)
    | .form [] => .error "IndexError"
    | .form (h :: t) => do
      let function ← cljVisit fuel h
      let args ← t.mapM (cljVisit fuel)
      cljFormRest function args

/-! ## The optimizer fragment (`pyppl/ppl_optimizers.py`)

The fragment embeds the `Optimizer` methods `visit_value`,
`visit_value_vector`, `visit_symbol`, `visit_unary` and `visit_binary`,
which the claims about the optimizer exercise; the AST constructors
outside this fragment (bodies, definitions, calls, ...) are rejected with
an explicit error rather than being given approximate semantics.

Python arithmetic on literal values (the `lambda`s of
`AstBinary.__binary_ops`) is modelled by `pyBinOp` below, with `Option`
for the raising cases (`ZeroDivisionError`, shifting by a negative
amount, operands of incompatible types). -/

/-- Python truthiness of a literal. -/
def pyTruthy : PyVal → Bool
  | .pbool b => b
  | .pint n => !(n = 0)
  | .pfloat q => !(q = 0)
  | .pstr s => !(s.length = 0)
  | .pnone => false

/-- The numeric content of a literal for arithmetic (Python booleans act
as the integers 0/1); `none` for strings and `None`. -/
def pyAsRat : PyVal → Option Rat
  | .pbool b => some (if b then 1 else 0)
  | .pint n => some (n : Rat)
  | .pfloat q => some q
  | .pstr _ => none
  | .pnone => none

/-- Is the literal integer-like for arithmetic (an int or a bool)? -/
def pyIsIntLike : PyVal → Option Int
  | .pbool b => some (if b then 1 else 0)
  | .pint n => some n
  | _ => none

/-- Python `x ** y` on numbers: an integer result for a non-negative
integer exponent on an integer base, otherwise a float.  A float result
for a non-integer exponent is irrational in general and is outside the
scope of the model (`none`); no analysed rewrite produces one. -/
def pyPow (a b : PyVal) : Option PyVal :=
  match pyIsIntLike a, pyIsIntLike b with
  | some x, some y =>
    if 0 ≤ y then some (.pint (x ^ y.toNat))
    else if x = 0 then none
    else some (.pfloat ((x : Rat) ^ y))
  | _, _ =>
    match pyAsRat a, pyIsIntLike b with
    | some x, some y =>
      if x = 0 ∧ y < 0 then none else some (.pfloat (x ^ y))
    | _, _ => none

/-- Python floored modulo on rationals (`math.fmod` flavour used by `%`
on floats: result has the sign of the divisor, as in Python). -/
def ratFloorMod (a b : Rat) : Rat :=
  a - b * ((a / b).floor : Rat)

/-- The `lambda`s of `AstBinary.__binary_ops` (`pyppl/ppl_ast.py`) on
literal values; `none` models a raised exception. -/
def pyBinOp (op : String) (a b : PyVal) : Option PyVal :=
  if op = "+" then
    match a, b with
    | .pstr x, .pstr y => some (.pstr (x ++ y))
    | _, _ =>
      match pyIsIntLike a, pyIsIntLike b with
      | some x, some y => some (.pint (x + y))
      | _, _ =>
        match pyAsRat a, pyAsRat b with
        | some x, some y => some (.pfloat (x + y))
        | _, _ => none
  else if op = "-" then
    match pyIsIntLike a, pyIsIntLike b with
    | some x, some y => some (.pint (x - y))
    | _, _ =>
      match pyAsRat a, pyAsRat b with
      | some x, some y => some (.pfloat (x - y))
      | _, _ => none
  else if op = "*" then
    match a, b with
    | .pstr x, _ =>
      match pyIsIntLike b with
      | some y => some (.pstr (String.join (List.replicate y.toNat x)))
      | none => none
    | _, .pstr y =>
      match pyIsIntLike a with
      | some x => some (.pstr (String.join (List.replicate x.toNat y)))
      | none => none
    | _, _ =>
      match pyIsIntLike a, pyIsIntLike b with
      | some x, some y => some (.pint (x * y))
      | _, _ =>
        match pyAsRat a, pyAsRat b with
        | some x, some y => some (.pfloat (x * y))
        | _, _ => none
  else if op = "/" then
    match pyAsRat a, pyAsRat b with
    | some x, some y => if y = 0 then none else some (.pfloat (x / y))
    | _, _ => none
  else if op = "%" then
    match pyIsIntLike a, pyIsIntLike b with
    | some x, some y => if y = 0 then none else some (.pint (Int.fmod x y))
    | _, _ =>
      match pyAsRat a, pyAsRat b with
      | some x, some y => if y = 0 then none else some (.pfloat (ratFloorMod x y))
      | _, _ => none
  else if op = "//" then
    match pyIsIntLike a, pyIsIntLike b with
    | some x, some y => if y = 0 then none else some (.pint (Int.fdiv x y))
    | _, _ =>
      match pyAsRat a, pyAsRat b with
      | some x, some y =>
        if y = 0 then none else some (.pfloat (((x / y).floor : Rat)))
      | _, _ => none
  else if op = "**" then pyPow a b
  else if op = "<<" then
    match pyIsIntLike a, pyIsIntLike b with
    | some x, some y =>
      if y < 0 then none else some (.pint (x * (2 : Int) ^ y.toNat))
    | _, _ => none
  else if op = ">>" then
    match pyIsIntLike a, pyIsIntLike b with
    | some x, some y =>
      if y < 0 then none else some (.pint (x >>> y.toNat))
    | _, _ => none
  else if op = "&" then
    match a, b with
    | .pbool x, .pbool y => some (.pbool (x && y))
    | _, _ =>
      match pyIsIntLike a, pyIsIntLike b with
      | some x, some y => some (.pint (Int.land x y))
      | _, _ => none
  else if op = "|" then
    match a, b with
    | .pbool x, .pbool y => some (.pbool (x || y))
    | _, _ =>
      match pyIsIntLike a, pyIsIntLike b with
      | some x, some y => some (.pint (Int.lor x y))
      | _, _ => none
  else if op = "^" then
    match a, b with
    | .pbool x, .pbool y => some (.pbool (xor x y))
    | _, _ =>
      match pyIsIntLike a, pyIsIntLike b with
      | some x, some y => some (.pint (Int.xor x y))
      | _, _ => none
  else if op = "and" then some (if pyTruthy a then b else a)
  else if op = "or" then some (if pyTruthy a then a else b)
  else none

/-- `is_number` (`pyppl/ppl_ast.py`): an `AstValue` holding an int or a
float (or a complex, outside the fragment); Python `type(...)` checks
exclude booleans. -/
def is_number : PAst → Bool
  | .value (.pint _) => true
  | .value (.pfloat _) => true
  | _ => false

/-- `is_integer` (`pyppl/ppl_ast.py`). -/
def is_integer : PAst → Bool
  | .value (.pint _) => true
  | _ => false

/-- `is_string` (`pyppl/ppl_ast.py`). -/
def is_string : PAst → Bool
  | .value (.pstr _) => true
  | _ => false

/-- `is_boolean` (`pyppl/ppl_ast.py`). -/
def is_boolean : PAst → Bool
  | .value (.pbool _) => true
  | _ => false

/-- `is_symbol` (`pyppl/ppl_ast.py`). -/
def is_symbol : PAst → Bool
  | .symbol _ _ => true
  | _ => false

/-- The literal held by an `AstValue` node (`pnone` elsewhere; only
applied behind `is_...` guards, as in the source). -/
def valueOf : PAst → PyVal
  | .value v => v
  | _ => PyVal.pnone

/-- Python numeric equality `value == k` for the integer constants the
optimizer compares against (`0`, `1`, `-1`): ints and floats compare by
value. -/
def pyValEqInt (v : PyVal) (k : Int) : Bool :=
  match v with
  | .pint n => n = k
  | .pfloat q => q = (k : Rat)
  | .pbool b => (if b then (1 : Int) else 0) = k
  | _ => false

/-- The negation map `AstCompare.neg_op`.
Modelled from the spec: the source's `ppl_ast.py` copy predates this
property (the optimizer reads it on `AstCompare`); the spec's comparison
operator set `{==, !=, <, <=, >, >=, is, in, is not, not in}` negates
operator-wise in the standard way. -/
def cmpNegOp (op : String) : String :=
  if op = "==" then "!="
  else if op = "!=" then "=="
  else if op = "<" then ">="
  else if op = "<=" then ">"
  else if op = ">" then "<="
  else if op = ">=" then "<"
  else if op = "is" then "is not"
  else if op = "in" then "not in"
  else if op = "is not" then "is"
  else "in"

/-- Is the node an `AstBinary`? -/
def isBinary : PAst → Bool
  | .binary _ _ _ => true
  | _ => false

/-- Is the node an `AstUnary`? -/
def isUnary : PAst → Bool
  | .unary _ _ => true
  | _ => false

/-- Is the node an `AstValueVector`? -/
def isValueVector : PAst → Bool
  | .valueVector _ => true
  | _ => false

/-- `node.left` of an `AstBinary` (the node itself elsewhere; only applied
behind `isBinary` guards, as in the source). -/
def binLeft : PAst → PAst
  | .binary l _ _ => l
  | x => x

/-- `node.op` of an `AstBinary`. -/
def binOp : PAst → String
  | .binary _ o _ => o
  | _ => ""

/-- `node.right` of an `AstBinary`. -/
def binRight : PAst → PAst
  | .binary _ _ r => r
  | x => x

/-- `node.op` of an `AstUnary`. -/
def uop_of : PAst → String
  | .unary o _ => o
  | _ => ""

/-- `node.item` of an `AstUnary`. -/
def uitem_of : PAst → PAst
  | .unary _ i => i
  | x => x

/-- `node.name` of an `AstSymbol`. -/
def symName : PAst → String
  | .symbol n _ => n
  | _ => ""

/-- Is the node an `AstCompare` with `second_right is None`? -/
def isCompareNoSecond : PAst → Bool
  | .compare _ _ _ _ none => true
  | _ => false

/-- `node.left` of an `AstCompare`. -/
def cmpLeft : PAst → PAst
  | .compare l _ _ _ _ => l
  | x => x

/-- `node.op` of an `AstCompare`. -/
def cmpOp : PAst → String
  | .compare _ o _ _ _ => o
  | _ => ""

/-- `node.right` of an `AstCompare`. -/
def cmpRight : PAst → PAst
  | .compare _ _ r _ _ => r
  | x => x

/-- The items of an `AstValueVector`. -/
def vvItems : PAst → List PyVal
  | .valueVector items => items
  | _ => []

/-- The string of an `AstValue` string literal. -/
def strValOf : PAst → String
  | .value (.pstr s) => s
  | _ => ""

/-- The boolean of an `AstValue` boolean literal. -/
def boolValOf : PAst → Bool
  | .value (.pbool b) => b
  | _ => false

/-- Python unary minus on a number literal. -/
def pyNeg : PyVal → PyVal
  | .pint n => .pint (-n)
  | .pfloat q => .pfloat (-q)
  | .pbool b => .pint (-(if b then 1 else 0))
  | v => v

/-- Is the literal a Python `int` (`type(value) is int`, which excludes
booleans)? -/
def pyIsInt : PyVal → Bool
  | .pint _ => true
  | _ => false

/-- Python list repetition `items * n`. -/
def pyListRepeat (items : List PyVal) (n : Int) : List PyVal :=
  (List.replicate n.toNat items).flatten

/-- Lifts the `Option` result of a Python arithmetic operation into the
`Except` monad (a `none` models a raised exception). -/
def liftOpt : Option PyVal → Except String PyVal
  | some v => .ok v
  | none => .error "arithmetic error"

/-- The `Optimizer` visitor (`pyppl/ppl_optimizers.py`) restricted to the
embedded fragment: `visit_value` (line 667), `visit_value_vector`
(line 670), `visit_symbol` (line 629), `visit_unary` (line 638) and
`visit_binary` (line 77).  `env` is the scope of the `ScopedVisitor`
(`resolve`); the recursion of the source (which re-visits rebuilt nodes)
is bounded by explicit fuel, and AST constructors outside the fragment
are rejected with an error rather than being given approximate
semantics.  The transcription of `visit_binary` keeps the source's
control flow: the pre-visit same-symbol cancellation, constant folding
(including the operator-precedence quirk in the `str`/`int`
multiplication test, whose second disjunct fires for any operator), the
zero/one/minus-one identities, the constant-association rewrites, the
`- 2`→`+ (-2)` and `/ 2`→`* 0.5` re-associations (which rebind `op` and
`right` for the fall-through), the shift-to-multiplication rewrite, the
boolean short-circuits, and the trailing double-negation rule. -/
def optVisit (env : List (String × PAst)) : Nat → PAst → Except String PAst
  | 0, _ => .error "out of fuel"
  | fuel + 1, node =>
    match node with
    | .value _ => .ok node
    | .valueVector _ => .ok node
    | .symbol name prot =>
      if prot then .ok node
      else
        match env.lookup name with
        | some v => .ok v
        | none => .ok node
    | .unary nodeOp nodeItem => do
      let item ← optVisit env fuel nodeItem
      let op := nodeOp
      if op = "+" then .ok item
      else if isUnary item && uop_of item = op then .ok (uitem_of item)
      else if is_number item && op = "-" then .ok (.value (pyNeg (valueOf item)))
      else if op = "not" && isCompareNoSecond item then
        match mkAstCompare (cmpLeft item) (cmpNegOp (cmpOp item)) (cmpRight item)
            none none with
        | some r => .ok r
        | none => .error "AssertionError"
      else if op = "not" && isBinary item &&
          (binOp item = "and" || binOp item = "or") then
        optVisit env fuel
          (.binary (.unary "not" (binLeft item))
            (if binOp item = "or" then "and" else "or")
            (.unary "not" (binRight item)))
      else if op = "not" && is_boolean item then
        .ok (.value (.pbool (!(boolValOf item))))
      else .ok (.unary nodeOp item)
    | .binary nodeLeft nodeOp nodeRight =>
      if is_symbol nodeLeft && is_symbol nodeRight &&
          (nodeOp = "-" || nodeOp = "/" || nodeOp = "//") &&
          symName nodeLeft = symName nodeRight then
        .ok (.value (.pint (if nodeOp = "-" then 0 else 1)))
      else do
        let left ← optVisit env fuel nodeLeft
        let right ← optVisit env fuel nodeRight
        let op := nodeOp
        if is_number left && is_number right then do
          let v ← liftOpt (pyBinOp op (valueOf left) (valueOf right))
          .ok (.value v)
        else if op = "+" && is_string left && is_string right then
          .ok (.value (.pstr (strValOf left ++ strValOf right)))
        else if op = "+" && isValueVector left && isValueVector right then
          .ok (.valueVector (vvItems left ++ vvItems right))
        else if (op = "*" && is_string left && is_integer right) ||
            (is_integer left && is_string right) then
          do
            let v ← liftOpt (pyBinOp "*" (valueOf left) (valueOf right))
            .ok (.value v)
        else if op = "*" && isValueVector left && is_integer right then
          .ok (.valueVector (pyListRepeat (vvItems left)
            (match valueOf right with | .pint n => n | _ => 0)))
        else if op = "*" && is_integer left && isValueVector right then
          .ok (.valueVector (pyListRepeat (vvItems right)
            (match valueOf left with | .pint n => n | _ => 0)))
        else do
          let step :
              Except String (Option PAst × String × PAst) :=
            if is_number left then do
              let value := valueOf left
              if pyValEqInt value 0 && (op = "+" || op = "|" || op = "^") then
                .ok (some right, op, right)
              else if pyValEqInt value 0 && op = "-" then do
                let r ← optVisit env fuel (.unary "-" right)
                .ok (some r, op, right)
              else if pyValEqInt value 0 &&
                  (op = "*" || op = "/" || op = "//" || op = "%" || op = "&" ||
                    op = "<<" || op = ">>" || op = "**") then
                .ok (some left, op, right)
              else if !(pyValEqInt value 0) && pyValEqInt value 1 && op = "*" then
                .ok (some right, op, right)
              else if !(pyValEqInt value 0) && !(pyValEqInt value 1) &&
                  pyValEqInt value (-1) && op = "*" then do
                let r ← optVisit env fuel (.unary "-" right)
                .ok (some r, op, right)
              else if isBinary right && is_number (binLeft right) then
                let rv := valueOf (binLeft right)
                if op = binOp right &&
                    (op = "+" || op = "-" || op = "*" || op = "&" || op = "|") then do
                  let folded ← liftOpt (pyBinOp op value rv)
                  let r ← optVisit env fuel
                    (.binary (.value folded) (if op = "-" then "+" else op)
                      (binRight right))
                  .ok (some r, op, right)
                else if op = binOp right && op = "/" then do
                  let folded ← liftOpt (pyBinOp "/" value rv)
                  let r ← optVisit env fuel
                    (.binary (.value folded) "*" (binRight right))
                  .ok (some r, op, right)
                else if (op = "+" || op = "-") &&
                    (binOp right = "+" || binOp right = "-") then do
                  let folded ← liftOpt (pyBinOp op value rv)
                  let r ← optVisit env fuel
                    (.binary (.value folded) "-" (binRight right))
                  .ok (some r, op, right)
                else .ok (none, op, right)
              else .ok (none, op, right)
            else if is_number right then do
              let value := valueOf right
              if pyValEqInt value 0 &&
                  (op = "+" || op = "-" || op = "|" || op = "^") then
                .ok (some left, op, right)
              else if pyValEqInt value 0 && op = "**" then
                .ok (some (.value (.pint 1)), op, right)
              else if pyValEqInt value 0 && op = "*" then
                .ok (some right, op, right)
              else if !(pyValEqInt value 0) && pyValEqInt value 1 &&
                  (op = "*" || op = "/" || op = "**") then
                .ok (some left, op, right)
              else if !(pyValEqInt value 0) && !(pyValEqInt value 1) &&
                  pyValEqInt value (-1) && (op = "*" || op = "/") then do
                let r ← optVisit env fuel (.unary "-" right)
                .ok (some r, op, right)
              else do
                let (op, value, right) :=
                  if op = "-" then ("+", pyNeg value, PAst.value (pyNeg value))
                  else (op, value, right)
                let step2 : Except String (String × PyVal × PAst) :=
                  if op = "/" && !(pyValEqInt value 0) then do
                    let inv ← liftOpt (pyBinOp "/" (.pint 1) value)
                    .ok ("*", inv, PAst.value inv)
                  else .ok (op, value, right)
                let (op, value, right) ← step2
                if isBinary left && is_number (binRight left) then
                  let lv := valueOf (binRight left)
                  if op = binOp left &&
                      (op = "+" || op = "*" || op = "|" || op = "&") then do
                    let folded ← liftOpt (pyBinOp op lv value)
                    let r ← optVisit env fuel
                      (.binary (binLeft left) op (.value folded))
                    .ok (some r, op, right)
                  else if op = binOp left && op = "-" then do
                    let folded ← liftOpt (pyBinOp "+" lv value)
                    let r ← optVisit env fuel
                      (.binary (binLeft left) "-" (.value folded))
                    .ok (some r, op, right)
                  else if op = binOp left && (op = "/" || op = "**") then do
                    let folded ← liftOpt (pyBinOp "*" lv value)
                    let r ← optVisit env fuel
                      (.binary (binLeft left) "/" (.value folded))
                    .ok (some r, op, right)
                  else if (op = "+" || op = "-") &&
                      (binOp left = "+" || binOp left = "-") then do
                    let folded ← liftOpt (pyBinOp "-" lv value)
                    let r ← optVisit env fuel
                      (.binary (binLeft left) (binOp left) (.value folded))
                    .ok (some r, op, right)
                  else if (op = "<<" || op = ">>") && pyIsInt value then do
                    let base : PyVal :=
                      if op = "<<" then .pint 2 else .pfloat (1 / 2)
                    let folded ← liftOpt (pyPow base value)
                    .ok (some (.binary left "*" (.value folded)), op, right)
                  else .ok (none, op, right)
                else if (op = "<<" || op = ">>") && pyIsInt value then do
                  let base : PyVal :=
                    if op = "<<" then .pint 2 else .pfloat (1 / 2)
                  let folded ← liftOpt (pyPow base value)
                  .ok (some (.binary left "*" (.value folded)), op, right)
                else .ok (none, op, right)
            else if is_boolean left && is_boolean right then do
              let v ← liftOpt (pyBinOp op (valueOf left) (valueOf right))
              .ok (some (.value v), op, right)
            else if is_boolean left then
              if op = "and" then
                .ok (some (if boolValOf left then right
                  else .value (.pbool false)), op, right)
              else if op = "or" then
                .ok (some (if !(boolValOf left) then right
                  else .value (.pbool true)), op, right)
              else .ok (none, op, right)
            else if is_boolean right then
              if op = "and" then
                .ok (some (if boolValOf right then left
                  else .value (.pbool false)), op, right)
              else if op = "or" then
                .ok (some (if !(boolValOf right) then left
                  else .value (.pbool true)), op, right)
              else .ok (none, op, right)
            else .ok (none, op, right)
          match (← step) with
          | (some r, _, _) => .ok r
          | (none, op, right) =>
            if op = "-" && isUnary right && uop_of right = "-" then
              optVisit env fuel (.binary left "+" (uitem_of right))
            else .ok (.binary left op right)
    | _ => .error "outside the embedded optimizer fragment"

/-- `optimize` (`pyppl/ppl_optimizers.py`, lines 701-730) on the embedded
fragment.  The input is a single expression, not a list, so the
`AstBody` wrapping and unwrapping and the dead-`Def` removal of the
wrapper act as the identity; and the fragment has no assignments, so
`get_info(ast).mutable_vars` is empty and the protect loop makes no
iteration.  What remains is one visit with a fresh `Optimizer`
(an empty scope). -/
def optimize (fuel : Nat) (ast : PAst) : Except String PAst :=
  optVisit [] fuel ast

/-! ## The SSA pass (`pyppl/transforms/ppl_static_assignments.py`)

`StaticAssignments` keeps one global counter per source name
(`self.symbols`, class `Symbol`) and a stack of scopes mapping each
source name to its current instance name (`SymbolScope`).  The
`TransformVisitor` base class and the helpers `makeBody` /
`generate_temp_var` live in modules absent from the sources (the
`aux` package and a newer `ppl_ast`); they are modelled from the spec
where noted. -/

/-- Updates an association list at a key (insert or overwrite), as a
Python dict assignment does. -/
def assocSet (l : List (String × String)) (k v : String) : List (String × String) :=
  if l.any (fun p => p.1 = k) then l.map (fun p => if p.1 = k then (k, v) else p)
  else l ++ [(k, v)]

/-- The state of the `StaticAssignments` visitor: the per-name counters
(`self.symbols`), the scope stack (`self.symbol_scope`, innermost
first; the bottom element is the scope created in `__init__`), and a
counter backing `generate_temp_var`. -/
structure SsaState where
  counters : List (String × Nat)
  scopes : List (List (String × String))
  tempCount : Nat
deriving DecidableEq, Repr

/-- The initial state of `StaticAssignments.__init__`. -/
def ssaInit : SsaState :=
  { counters := [], scopes := [[]], tempCount := 0 }

/-- `Symbol.get_current_instance`: the name itself for the first
instance, the name with the counter appended afterwards. -/
def ssaInstanceName (name : String) (counter : Nat) : String :=
  if counter = 1 then name else name ++ toString counter

/-- The current counter of a name (`0` when the name has no `Symbol`
record yet). -/
def ssaCounterOf (st : SsaState) (name : String) : Nat :=
  (st.counters.lookup name).getD 0

/-- `StaticAssignments.new_symbol_instance`: bump the name's counter,
compute the instance name, and record it as the current symbol in the
innermost scope. -/
def newSymbolInstance (st : SsaState) (name : String) : String × SsaState :=
  let counter := ssaCounterOf st name + 1
  let result := ssaInstanceName name counter
  let counters :=
    if st.counters.any (fun p => p.1 = name) then
      st.counters.map (fun p => if p.1 = name then (name, counter) else p)
    else st.counters ++ [(name, counter)]
  let scopes :=
    match st.scopes with
    | top :: rest => assocSet top name result :: rest
    | [] => []
  (result, { st with counters := counters, scopes := scopes })

/-- `SymbolScope.get_current_symbol`, walked through the scope chain
(`StaticAssignments.access_symbol`): the innermost binding, or the name
itself when unbound. -/
def getCurrentSymbol (st : SsaState) (name : String) : String :=
  let rec walk : List (List (String × String)) → String
    | [] => name
    | scope :: rest =>
      match scope.lookup name with
      | some inst => inst
      | none => walk rest
  walk st.scopes

/-- `SymbolScope.has_current_symbol` (`StaticAssignments.has_symbol`). -/
def hasCurrentSymbol (st : SsaState) (name : String) : Bool :=
  st.scopes.any (fun scope => scope.any (fun p => p.1 = name))

/-- `StaticAssignments.begin_scope`. -/
def ssaBeginScope (st : SsaState) : SsaState :=
  { st with scopes := [] :: st.scopes }

/-- `StaticAssignments.end_scope`: pop the innermost scope and return its
bindings. -/
def ssaEndScope (st : SsaState) : List (String × String) × SsaState :=
  match st.scopes with
  | top :: rest => (top, { st with scopes := rest })
  | [] => ([], st)

/-- `generate_temp_var`.
Modelled from the spec: the helper is imported from a newer `ppl_ast`
absent from the sources; the spec only requires a fresh temporary name,
so the model draws `__tmp_<k>` from a dedicated counter. -/
def generateTempVar (st : SsaState) : String × SsaState :=
  let name := "__tmp_" ++ toString st.tempCount
  (name, { st with tempCount := st.tempCount + 1 })

/-- `makeBody`.
Modelled from the spec: the helper is imported from a newer `ppl_ast`
absent from the sources; per the spec's Body invariant it joins the
given statements, flattening nested bodies one level, and a single
remaining statement stands alone. -/
def makeBody (items : List PAst) : PAst :=
  let items := items.flatMap (fun i =>
    match i with
    | .body xs => xs
    | x => [x])
  match items with
  | [x] => x
  | xs => .body xs

/-- `StaticAssignments.split_body`. -/
def splitBody : PAst → Option (List PAst) × PAst
  | .body [] => (none, .value .pnone)
  | .body [x] => (none, x)
  | .body xs => (some xs.dropLast, xs.getLastD (.value .pnone))
  | x => (none, x)

/-- The ϕ-definition builder local to `StaticAssignments.visit_if`:
`phi(key, cond, left, right) = AstDef(key, AstIf(cond, AstSymbol(left),
AstSymbol(right)))`. -/
def ssaPhi (key : String) (cond : PAst) (left right : String) : PAst :=
  .defA key (.ifA cond (.symbol left false) (some (.symbol right false)))

/-- The ϕ-emission loop at the end of `StaticAssignments.visit_if`
(lines 244-252), over the given key order.  For each key: a key assigned
in both branches gets a ϕ-definition over the two branch instances; a
key with no current outer definition is skipped; a key assigned in one
branch gets a ϕ-definition whose other side is `self.access_symbol(key)`
— note that Python evaluates `self.new_symbol_instance(key)` (which
re-binds the current symbol to the fresh instance) *before*
`self.access_symbol(key)`, so that side refers to the fresh instance
itself. -/
def ssaPhiLoop (ifSyms elseSyms : List (String × String)) (test : PAst) :
    List String → SsaState → List PAst × SsaState
  | [], st => ([], st)
  | key :: rest, st =>
    match ifSyms.lookup key, elseSyms.lookup key with
    | some a, some b =>
      let (inst, st) := newSymbolInstance st key
      let (outs, st) := ssaPhiLoop ifSyms elseSyms test rest st
      (ssaPhi inst test a b :: outs, st)
    | some a, none =>
      if !(hasCurrentSymbol st key) then ssaPhiLoop ifSyms elseSyms test rest st
      else
        let (inst, st) := newSymbolInstance st key
        let other := getCurrentSymbol st key
        let (outs, st) := ssaPhiLoop ifSyms elseSyms test rest st
        (ssaPhi inst test a other :: outs, st)
    | none, some b =>
      if !(hasCurrentSymbol st key) then ssaPhiLoop ifSyms elseSyms test rest st
      else
        let (inst, st) := newSymbolInstance st key
        let other := getCurrentSymbol st key
        let (outs, st) := ssaPhiLoop ifSyms elseSyms test rest st
        (ssaPhi inst test other b :: outs, st)
    | none, none => ssaPhiLoop ifSyms elseSyms test rest st

/-- Is the node an `AstSymbol`?  (Already provided as `is_symbol`;
repeated here under the name used by `visit_if`.) -/
def ssaKeys (ifSyms elseSyms : List (String × String)) : List String :=
  ifSyms.map Prod.fst ++
    (elseSyms.map Prod.fst).filter (fun k => !(ifSyms.map Prod.fst).contains k)

/-- The `StaticAssignments` visitor on the embedded fragment: `visit_def`
(line 161), `visit_if` (line 214), `visit_symbol` (line 289), and the
`TransformVisitor` default for leaf values (the `aux` base module is
absent from the sources; modelled from the spec, a leaf with no children
is returned unchanged).  Constructors outside the fragment are rejected
with an error rather than being given approximate semantics.  The
recursion (the source re-visits `makeBody` results) is bounded by fuel.

In `visit_if`, after the constant-test shortcuts the two branches are
visited each in its own scope, the names they assigned are collected,
and the `If` (with the test bound to a temporary unless it is already a
symbol) is emitted followed by the ϕ-definitions of `ssaPhiLoop`. -/
def ssaVisit : Nat → SsaState → PAst → Except String (PAst × SsaState)
  | 0, _, _ => .error "out of fuel"
  | fuel + 1, st, node =>
    match node with
    | .value _ => .ok (node, st)
    | .symbol name prot => .ok (.symbol (getCurrentSymbol st name) prot, st)
    | .defA name value => do
      -- visit_def; the AstObserve / AstSample / AstFunction special cases
      -- concern constructors outside the embedded fragment
      let (v, st) ← ssaVisit fuel st value
      match splitBody v with
      | (some pre, v2) => ssaVisit fuel st (makeBody (pre ++ [.defA name v2]))
      | (none, v2) =>
        let (inst, st) := newSymbolInstance st name
        .ok (.defA inst v2, st)
    | .ifA nodeTest nodeIf nodeElse => do
      let (t, st) ← ssaVisit fuel st nodeTest
      match splitBody t with
      | (some pre, test) =>
        ssaVisit fuel st (makeBody (pre ++ [.ifA test nodeIf nodeElse]))
      | (none, test) =>
        -- `if isinstance(test, AstValue): ...` — the two constant shortcuts,
        -- with every other literal falling through like a non-literal test
        let testTrue : Bool := match test with
          | .value v => v = .pbool true
          | _ => false
        let testFalse : Bool := match test with
          | .value v => v = .pbool false ∨ v = .pnone
          | _ => false
        if testTrue then ssaVisit fuel st nodeIf
        else if testFalse then
          match nodeElse with
          | some e => ssaVisit fuel st e
          | none => .error "visit(None) is outside the embedded fragment"
        else do
          let st := ssaBeginScope st
          let (ifNode, st) ← ssaVisit fuel st nodeIf
          let (ifSyms, st) := ssaEndScope st
          let st := ssaBeginScope st
          let (elseRes, st) ←
            match nodeElse with
            | some e => do
              let (r, st) ← ssaVisit fuel st e
              pure (some r, st)
            | none => pure ((none : Option PAst), st)
          let (elseSyms, st) := ssaEndScope st
          -- `keys = set.union(set(if_symbols.keys()), set(else_symbols.keys()))`;
          -- Python iterates this set in an unspecified order, the model fixes
          -- the insertion order (the claims below are order-insensitive)
          let keys := ssaKeys ifSyms elseSyms
          if keys = [] then
            .ok (.ifA nodeTest ifNode elseRes, st)
          else
            let (result1, test, st) :=
              match test with
              | .symbol _ _ => (([] : List PAst), test, st)
              | _ =>
                let (tmp, st) := generateTempVar st
                ([PAst.defA tmp test], PAst.symbol tmp false, st)
            let (phis, st) := ssaPhiLoop ifSyms elseSyms test keys st
            .ok (makeBody (result1 ++ [PAst.ifA test ifNode elseRes] ++ phis), st)
    | _ => .error "outside the embedded SSA fragment"

/-! ## The foppl graph and compiler (`foppl/graphs.py`, `foppl/compilers.py`)

Graph nodes are created with names drawn from the single class-level
counter `GraphNode.__symbol_counter__` (initially 30000): a `Vertex` is
named `x<k>` (sampled) or `y<k>` (observed), a `ConditionNode` is named
`cond_<k>`.  The embedding identifies each node by its counter value
`k` and keeps the created nodes (with their mutable `dependent_conditions`
sets) in an explicit store.  The AST classes (`foppl_ast.py`) and the
parsers are absent from the sources; `FExpr` is modelled from the spec:
literal values, symbols, comparisons, distribution expressions, `sample`,
`observe`, single-binding `let` and `if`, exactly the shapes the
compiler's `visit_...` methods consume. -/

inductive FExpr where
  | val (n : Int)
  | sym (name : String)
  | cmp (op : String) (l r : FExpr)
  | dst (name : String) (args : List FExpr)
  | sample (d : FExpr)
  | observe (d : FExpr) (v : FExpr)
  | letE (name : String) (value : FExpr) (body : FExpr)
  | ifE (test : FExpr) (thenB : FExpr) (elseB : Option FExpr)
deriving Repr

/-- The code objects (`foppl/code_objects.py`) returned alongside each
graph: literal code, comparisons, distribution code, references to a
sampled/observed vertex, and conditional code. -/
inductive FCode where
  | cval (n : Int)
  | ccmp (l : FCode) (op : String) (r : FCode)
  | cdist (name : String) (args : List FCode)
  | csample (v : Nat)
  | cobserve (v : Nat)
  | cif (c : FCode) (t : FCode) (e : Option FCode)
deriving Repr

/-- One `Vertex` of `foppl/graphs.py`, identified by its counter value:
the observed flag (which decides the `x`/`y` name prefix), the
`ancestors` set, the `conditions` list of `(ConditionNode, truth value)`
pairs, and the mutable `dependent_conditions` set (all by counter
value). -/
structure VertexData where
  num : Nat
  observed : Bool
  ancestors : List Nat
  conditions : List (Nat × Bool)
  depConds : List Nat
deriving DecidableEq, Repr

/-- One `ConditionNode`, identified by its counter value, with its
`ancestors` set. -/
structure CondData where
  num : Nat
  ancestors : List Nat
deriving DecidableEq, Repr

/-- Python set union on the vertex sets of two graphs (`Graph.merge`):
membership-preserving, keeping first-occurrence order. -/
def fgUnion (a b : List Nat) : List Nat :=
  a ++ b.filter (fun x => !(a.contains x))

/-- The non-recursive first half of `Vertex._add_dependent_condition`:
`if condition not in self.dependent_conditions:
self.dependent_conditions.add(condition)`, applied to the store entry
with counter `vnum`. -/
def markDepCond (c : Nat) (vnum : Nat) (vs : List VertexData) :
    List VertexData :=
  vs.map (fun v =>
    if v.num = vnum then
      { v with depConds := if v.depConds.contains c then v.depConds
                           else v.depConds ++ [c] }
    else v)

/-- `Vertex._add_dependent_condition` (`foppl/graphs.py`, lines 187-190):
add the condition to this vertex's `dependent_conditions` and recurse
into its ancestors.  The recursion is bounded by fuel; since every
ancestor was created before the vertex (its counter is smaller), fuel
`vnum + 1` always suffices. -/
def addDepCond (c : Nat) : Nat → Nat → List VertexData → List VertexData
  | 0, _, vs => vs
  | fuel + 1, vnum, vs =>
    let vs := markDepCond c vnum vs
    match vs.find? (fun v => v.num = vnum) with
    | none => vs
    | some v => v.ancestors.foldl (fun s a => addDepCond c fuel a s) vs

/-- The propagation loop of `ConditionNode.__init__` (`foppl/graphs.py`,
lines 66-68): `for a in ancestors: if isinstance(a, Vertex):
a._add_dependent_condition(self)` — in the compiler the ancestors of a
condition are always vertices. -/
def condPropagate (c : Nat) (fuel : Nat) (ancestors : List Nat)
    (vs : List VertexData) : List VertexData :=
  ancestors.foldl (fun s a => addDepCond c fuel a s) vs

/-- The compiler state: the class-level name counter, the stores of
created vertices and condition nodes (in creation order), the
conditional-scope stack (innermost first, each entry a
`(ConditionNode, truth value)` pair with the *current* truth value), and
the lexical scope stack of `(name, (graph, code))` bindings. -/
structure CState where
  counter : Nat
  verts : List VertexData
  conds : List CondData
  condStack : List (Nat × Bool)
  scopes : List (List (String × (List Nat × FCode)))
deriving Repr

/-- The compiler's initial state: counter 30000
(`GraphNode.__symbol_counter__`), no nodes, no conditional scope, one
global lexical scope. -/
def initCState : CState :=
  { counter := 30000, verts := [], conds := [], condStack := [], scopes := [[]] }

/-- `Vertex.__init__` as invoked by `visit_sample` / `visit_observe`:
draw the next counter value, snapshot the current conditions
(`Compiler.current_conditions`), and store the vertex. -/
def newVertex (st : CState) (observed : Bool) (ancestors : List Nat) :
    Nat × CState :=
  let num := st.counter + 1
  (num,
    { st with
        counter := num
        verts := st.verts ++
          [{ num := num, observed := observed, ancestors := ancestors,
             conditions := st.condStack, depConds := [] }] })

/-- `ConditionNode.__init__` as invoked by
`Compiler.begin_conditional_scope` (via `ConditionalScope.__init__`):
draw the next counter value, store the condition node, and run the
dependent-condition propagation over its ancestors.  (For a condition in
`f >= 0` form the source stores the function as well; the name,
ancestors and propagation are identical in both variants, which is all
the embedding records.) -/
def newConditionNode (st : CState) (ancestors : List Nat) : Nat × CState :=
  let num := st.counter + 1
  (num,
    { st with
        counter := num
        conds := st.conds ++ [{ num := num, ancestors := ancestors }]
        verts := condPropagate num num ancestors st.verts })

/-- `Scope.find_symbol` through the scope chain
(`Compiler.resolve_symbol`). -/
def findSymbol (scopes : List (List (String × (List Nat × FCode))))
    (name : String) : Option (List Nat × FCode) :=
  match scopes with
  | [] => none
  | scope :: rest =>
    match scope.lookup name with
    | some v => some v
    | none => findSymbol rest name

/-- `Scope.add_symbol` on the innermost scope (`Compiler.define`; the
`CodeSample` special case of `define` only records a display name
through `Graph.get_vertex_for_distribution`, a method absent from
`graphs.py`, and nothing in the claims reads it — it is modelled as a
no-op). -/
def defineSym (st : CState) (name : String) (v : List Nat × FCode) : CState :=
  match st.scopes with
  | scope :: rest =>
    { st with scopes :=
        (if scope.any (fun p => p.1 = name) then
          scope.map (fun p => if p.1 = name then (name, v) else p)
        else scope ++ [(name, v)]) :: rest }
  | [] => st

/-- Flip the truth value of the innermost conditional scope
(`Compiler.invert_conditional_scope` / `ConditionalScope.invert`). -/
def invertHead : List (Nat × Bool) → List (Nat × Bool)
  | [] => []
  | (c, tv) :: rest => (c, !tv) :: rest

/-- The `Compiler` walker of `foppl/compilers.py` on the embedded
fragment: `visit_value` (non-list literals), `visit_symbol`,
`visit_compare`, `visit_distribution` (with `walk_all` over the
arguments), `visit_sample` (line 420), `visit_observe` (line 413),
`visit_let` (single binding) and `visit_if` (line 367).  Each call
returns the `(graph, code)` pair of the source (the graph as its
vertex-number set) and threads the compiler state.  Fuel bounds the
recursion (the walker recurses along the expression tree, so any fuel
larger than the tree depth suffices). -/
def fcompile : Nat → CState → FExpr → Except String ((List Nat × FCode) × CState)
  | 0, _, _ => .error "out of fuel"
  | fuel + 1, st, e =>
    match e with
    | .val n => .ok (([], FCode.cval n), st)
    | .sym name =>
      match findSymbol st.scopes name with
      | some gv => .ok (gv, st)
      | none => .error "unresolved symbol"
    | .cmp op l r => do
      let ((gl, cl), st) ← fcompile fuel st l
      let ((gr, cr), st) ← fcompile fuel st r
      .ok ((fgUnion gl gr, .ccmp cl op cr), st)
    | .dst name args => do
      let (pairs, st) ← args.foldlM
        (fun (acc : List (List Nat × FCode) × CState) a => do
          let (p, st) ← fcompile fuel acc.2 a
          pure (acc.1 ++ [p], st))
        ([], st)
      let g := pairs.foldl (fun acc p => fgUnion acc p.1) []
      .ok ((g, .cdist name (pairs.map Prod.snd)), st)
    | .sample d => do
      let ((g, _), st) ← fcompile fuel st d
      let (num, st) := newVertex st false g
      .ok ((fgUnion [num] g, .csample num), st)
    | .observe d v => do
      let ((g, _), st) ← fcompile fuel st d
      let ((og, _), st) ← fcompile fuel st v
      let (num, st) := newVertex st true (fgUnion g og)
      -- the source returns `Graph({vertex}).merge(graph)`: only the
      -- distribution's graph is merged back, not `obs_graph`
      .ok ((fgUnion [num] g, .cobserve num), st)
    | .letE name value body => do
      let st := { st with scopes := [] :: st.scopes }   -- begin_scope
      let ((gv, cv), st) ← fcompile fuel st value
      let st := defineSym st name (gv, cv)
      let (res, st) ← fcompile fuel st body
      let st := { st with scopes := st.scopes.tail }    -- end_scope
      .ok (res, st)
    | .ifE test thenB elseB => do
      let ((cg, cc), st) ← fcompile fuel st test
      let (cnum, st) := newConditionNode st cg          -- begin_conditional_scope
      let st := { st with condStack := (cnum, true) :: st.condStack }
      let ((g1, c1), st) ← fcompile fuel st thenB
      match elseB with
      | some eb => do
        let st := { st with condStack := invertHead st.condStack }
        let ((g2, c2), st) ← fcompile fuel st eb
        let st := { st with condStack := st.condStack.tail }  -- end_conditional_scope
        .ok ((fgUnion cg (fgUnion g1 g2), .cif cc c1 (some c2)), st)
      | none => do
        let st := { st with condStack := st.condStack.tail }
        .ok ((fgUnion cg g1, .cif cc c1 none), st)

/-- Decimal digits of a natural number, most significant first (with
explicit fuel; `n + 1` is always enough since the argument shrinks by a
factor of 10 each step). -/
def natDigitsAux : Nat → Nat → List Char
  | 0, _ => []
  | fuel + 1, n =>
    if n < 10 then [Char.ofNat (48 + n)]
    else natDigitsAux fuel (n / 10) ++ [Char.ofNat (48 + n % 10)]

/-- Decimal digits of a natural number (Python `str(n)` for the
non-negative counters), most significant first. -/
def natDigits (n : Nat) : List Char :=
  natDigitsAux (n + 1) n

/-- The generated name of a vertex: `'y' + str(k)` when observed,
`'x' + str(k)` when sampled (`Vertex.__init__`,
`GraphNode.__gen_symbol__`). -/
def vertexName (v : VertexData) : List Char :=
  (if v.observed then ['y'] else ['x']) ++ natDigits v.num

/-- The generated name of a condition node: `'cond_' + str(k)`. -/
def condName (c : CondData) : List Char :=
  ['c', 'o', 'n', 'd', '_'] ++ natDigits c.num

/-- `extract_number` from `Graph.get_ordered_list_of_all_nodes`
(`foppl/graphs.py`, lines 295-300): the decimal number formed by all
digit characters of the name, in order. -/
def extract_number (s : List Char) : Nat :=
  s.foldl (fun r c => if '0' ≤ c ∧ c ≤ '9' then r * 10 + (c.toNat - 48) else r) 0

/-- A graph node as enumerated by `get_ordered_list_of_all_nodes`
(data nodes do not occur in the embedded fragment). -/
inductive FNode where
  | vnode (v : VertexData)
  | cnode (c : CondData)
deriving Repr

/-- `GraphNode.name` of an enumerated node. -/
def fnodeName : FNode → List Char
  | .vnode v => vertexName v
  | .cnode c => condName c

/-- The counter value of an enumerated node. -/
def fnodeNum : FNode → Nat
  | .vnode v => v.num
  | .cnode c => c.num

/-- A Python dict insertion `nodes[k] = v`: overwrite in place or append. -/
def dictInsert (d : List (Nat × FNode)) (k : Nat) (v : FNode) :
    List (Nat × FNode) :=
  if d.any (fun p => p.1 = k) then d.map (fun p => if p.1 = k then (k, v) else p)
  else d ++ [(k, v)]

/-- Insertion into a sorted list of keys. -/
def insertSorted (x : Nat) : List Nat → List Nat
  | [] => [x]
  | y :: ys => if x ≤ y then x :: y :: ys else y :: insertSorted x ys

/-- Python `sorted` on the key list. -/
def sortNat (l : List Nat) : List Nat :=
  l.foldr insertSorted []

/-- The condition set of a graph (`Graph.__init__`: the conditions
referenced by the `conditions` lists of the graph's vertices), as
first-occurrence-ordered counter values. -/
def graphConditions (st : CState) (gverts : List Nat) : List Nat :=
  ((st.verts.filter (fun v => gverts.contains v.num)).flatMap
    (fun v => v.conditions.map Prod.fst)).foldl
    (fun acc c => if acc.contains c then acc else acc ++ [c]) []

/-- `Graph.get_ordered_list_of_all_nodes` (`foppl/graphs.py`, lines
294-312) for a graph with the given vertex set, against the node store:
key every vertex and every referenced condition node by
`extract_number` of its name in a dict, then read the dict back in
sorted key order. -/
def get_ordered_list_of_all_nodes (st : CState) (gverts : List Nat) :
    List FNode :=
  let vs := (st.verts.filter (fun v => gverts.contains v.num)).map FNode.vnode
  let cs := (graphConditions st gverts).filterMap
    (fun n => (st.conds.find? (fun c => c.num = n)).map FNode.cnode)
  let d := (vs ++ cs).foldl
    (fun d node => dictInsert d (extract_number (fnodeName node)) node) []
  (sortNat (d.map Prod.fst)).filterMap
    (fun k => (d.find? (fun p => p.1 = k)).map Prod.snd)

/-- `Vertex.get_all_ancestors` (`foppl/graphs.py`, lines 192-198): the
transitive ancestors of a vertex, as a fuelled traversal of the store
(fuel `vnum + 1` suffices since ancestors always have smaller
counters). -/
def getAllAncestors (vs : List VertexData) : Nat → Nat → List Nat
  | 0, _ => []
  | fuel + 1, vnum =>
    match vs.find? (fun v => v.num = vnum) with
    | none => []
    | some v =>
      v.ancestors.foldl
        (fun res a =>
          if res.contains a then res
          else (res ++ [a]) ++ getAllAncestors vs fuel a) []

/-- The `dependent_conditions` of a vertex in the store. -/
def depsOf (vs : List VertexData) (vnum : Nat) : List Nat :=
  ((vs.find? (fun v => v.num = vnum)).map VertexData.depConds).getD []

/-- The reflexive ancestor-closure relation over a store shape:
`ReachesAnc sh a u` holds when `u` can be reached from `a` by following
`ancestors` edges zero or more times.  It is phrased over the shape (the
counter / ancestor data) because the dependent-condition propagation
changes only the parts the shape leaves out. -/
inductive ReachesAnc (sh : List (Nat × List Nat)) : Nat → Nat → Prop
  | refl (a : Nat) : ReachesAnc sh a a
  | step (a b u : Nat) (e : Nat × List Nat)
      (hv : sh.find? (fun p => p.1 = a) = some e)
      (hb : b ∈ e.2)
      (h : ReachesAnc sh b u) : ReachesAnc sh a u

/-- The creation-order invariant of the store: every ancestor of a vertex
was created earlier (has a strictly smaller counter value), and a found
vertex record carries its own number.  (The compiler maintains this by
construction: `visit_sample` / `visit_observe` create a vertex only
after compiling the expressions that produce its ancestors.) -/
def StoreWf (vs : List VertexData) : Prop :=
  (∀ v ∈ vs, ∀ a ∈ v.ancestors, a < v.num) ∧
  (∀ v ∈ vs, ∀ a ∈ v.ancestors, a ∈ vs.map VertexData.num)

/-! ## `Vertex.update_pdf` (`foppl/graphs.py`, lines 228-242)

At inference time each vertex carries compiled evaluation closures
(`self.evaluate`, `self.evaluate_observation_pdf`, built by `eval` over
the generated code).  The embedding abstracts the distribution object as
a type parameter `D` with a `log_pdf` capability, and the closures as
functions of the state, exactly the shape the generated lambdas have.
The state is the dictionary threaded through the model code. -/

/-- One inference-time state dictionary entry lookup / update. -/
def PdfState := List (String × PyVal)

/-- Dict assignment `state[k] = v`. -/
def pdfSet (st : List (String × PyVal)) (k : String) (v : PyVal) :
    List (String × PyVal) :=
  if st.any (fun p => p.1 = k) then st.map (fun p => if p.1 = k then (k, v) else p)
  else st ++ [(k, v)]

/-- Python `state[cond.name] != truth_value`, negated: equality between a
stored value and a Python boolean (booleans compare equal to the
integers 0/1). -/
def pyEqBool (v : PyVal) (b : Bool) : Bool :=
  match v with
  | .pbool x => x = b
  | .pint n => n = (if b then 1 else 0)
  | .pfloat q => q = (if b then 1 else 0)
  | _ => false

/-- A `Vertex` as `update_pdf` sees it: its name, its `(condition name,
truth value)` guards, the compiled distribution closure, the
distribution's `log_pdf` capability, and the compiled observation
closure when the vertex is observed. -/
structure PdfVertex (D : Type) where
  name : String
  conditions : List (String × Bool)
  evaluate : List (String × PyVal) → D
  log_pdf : D → PyVal → Rat
  observeVal : Option (List (String × PyVal) → PyVal)

/-- The guard loop of `update_pdf`: walk the conditions in order; a
missing state entry raises `KeyError`; the first mismatch causes the
early `return 0.0` (modelled as `ok false`). -/
def checkConditions : List (String × Bool) → List (String × PyVal) →
    Except String Bool
  | [], _ => .ok true
  | (cname, tv) :: rest, st =>
    match st.lookup cname with
    | none => .error "KeyError"
    | some v =>
      if !(pyEqBool v tv) then .ok false
      else checkConditions rest st

/-- The log-pdf contribution computed by the body of `update_pdf`: the
observation's log-pdf under the distribution for an observed vertex,
the log-pdf of the stored value for a sampled vertex with a value in the
state, and `0.0` otherwise. -/
def vertexLogPdf {D : Type} (v : PdfVertex D) (st : List (String × PyVal)) : Rat :=
  let dst := v.evaluate st
  match v.observeVal with
  | some f => v.log_pdf dst (f st)
  | none =>
    match st.lookup v.name with
    | some x => v.log_pdf dst x
    | none => 0

/-- The current `state.get('log_pdf', 0.0)` accumulator (stored values
are floats; a non-numeric entry, which would raise in Python, does not
occur in the claims). -/
def statePdf (st : List (String × PyVal)) : Rat :=
  match st.lookup "log_pdf" with
  | some v => (pyAsRat v).getD 0
  | none => 0

/-- `Vertex.update_pdf` (`foppl/graphs.py`, lines 228-242): return `0.0`
with the state untouched as soon as some guard's recorded truth value
differs from the state's, otherwise evaluate the distribution, compute
the contribution, add it to `state['log_pdf']` and return it. -/
def update_pdf {D : Type} (v : PdfVertex D) (st : List (String × PyVal)) :
    Except String (Rat × List (String × PyVal)) :=
  match checkConditions v.conditions st with
  | .error e => .error e
  | .ok false => .ok (0, st)
  | .ok true =>
    let lp := vertexLogPdf v st
    .ok (lp, pdfSet st "log_pdf" (.pfloat (statePdf st + lp)))

/-! ## Concrete inputs and statement abbreviations used by the theorems -/

/-- The discriminating input for the optimizer's idempotence:
`(x + 0) - (x + 0)`. -/
def c4input : PAst :=
  PAst.binary
    (PAst.binary (PAst.symbol "x" false) "+" (PAst.value (PyVal.pint 0)))
    "-"
    (PAst.binary (PAst.symbol "x" false) "+" (PAst.value (PyVal.pint 0)))

/-- The discriminating input for the SSA ϕ-coverage:
`if c: (x := 1)` with no prior definition of `x`. -/
def c3input : PAst :=
  PAst.ifA (PAst.symbol "c" false)
    (PAst.defA "x" (PAst.value (PyVal.pint 1))) none

/-- The per-key decision made by the ϕ-emission loop, phrased against the
state at loop entry: a key assigned in both branches yields a
ϕ-definition over the two branch instances; a key assigned in one branch
yields one only when it has a current outer definition, and the missing
side then names the fresh instance itself (which the loop re-binds
before reading the current symbol); other keys yield nothing. -/
def ssaPhiFor (st : SsaState) (ifSyms elseSyms : List (String × String))
    (test : PAst) (key : String) : Option PAst :=
  let inst := ssaInstanceName key (ssaCounterOf st key + 1)
  match ifSyms.lookup key, elseSyms.lookup key with
  | some a, some b => some (ssaPhi inst test a b)
  | some a, none =>
    if hasCurrentSymbol st key then some (ssaPhi inst test a inst) else none
  | none, some b =>
    if hasCurrentSymbol st key then some (ssaPhi inst test inst b) else none
  | none, none => none

/-- The observed-value slip input for the graph invariant:
`(observe (normal 0 1) (sample (normal 0 1)))`. -/
def c1prog : FExpr :=
  FExpr.observe (FExpr.dst "normal" [FExpr.val 0, FExpr.val 1])
    (FExpr.sample (FExpr.dst "normal" [FExpr.val 0, FExpr.val 1]))

/-- The final compiler state and graph vertex set for `c1prog`. -/
def c1result : CState × List Nat :=
  match fcompile 100 initCState c1prog with
  | .ok ((g, _), st) => (st, g)
  | .error _ => (initCState, [])

/-- The condition-propagation input:
`(let [a (sample (normal 0 1))]
   (if (> a 0) (sample (normal a 1)) (sample (normal 0 1))))`. -/
def c2prog : FExpr :=
  FExpr.letE "a" (FExpr.sample (FExpr.dst "normal" [FExpr.val 0, FExpr.val 1]))
    (FExpr.ifE (FExpr.cmp ">" (FExpr.sym "a") (FExpr.val 0))
      (FExpr.sample (FExpr.dst "normal" [FExpr.sym "a", FExpr.val 1]))
      (some (FExpr.sample (FExpr.dst "normal" [FExpr.val 0, FExpr.val 1]))))

/-- The final compiler state for `c2prog`. -/
def c2result : CState :=
  match fcompile 100 initCState c2prog with
  | .ok (_, st) => st
  | .error _ => initCState

/-- The shape (counter value and ancestor set) of each vertex record in a
store; the dependent-condition propagation changes only the parts the
shape leaves out. -/
def vshape (vs : List VertexData) : List (Nat × List Nat) :=
  vs.map (fun v => (v.num, v.ancestors))

/-- The creation-order invariant on a store shape: every ancestor of a
node was created earlier (has a strictly smaller counter value).  The
compiler maintains this by construction: `visit_sample` / `visit_observe`
create a vertex only after compiling the expressions that produce its
ancestors. -/
def ShapeWf (sh : List (Nat × List Nat)) : Prop :=
  ∀ p ∈ sh, ∀ b ∈ p.2, b < p.1

/-- The position-safety conclusion for one character stream: total
out-of-range reads and position-monotone, position-bounded mutation (for
`skip`, under a non-negative count). -/
def CsSafe (s : CharStream) : Prop :=
  (∀ i : Int, (i < 0 ∨ (s.source.length : Int) ≤ i) → csGet s i = nulChar) ∧
  (∀ i : Int, (s.pos + i < 0 ∨ (s.source.length : Int) ≤ s.pos + i) →
    csPeek s i = nulChar) ∧
  (∀ c : Int, csInv (csDrop s c) ∧ s.pos ≤ (csDrop s c).pos) ∧
  (∀ p : Char → Bool, csInv (csDropWhile s p) ∧ s.pos ≤ (csDropWhile s p).pos) ∧
  (csInv (csNext s).2 ∧ s.pos ≤ (csNext s).2.pos) ∧
  (∀ c : Int, 0 ≤ c → csInv (csSkip s c) ∧ s.pos ≤ (csSkip s c).pos) ∧
  (∀ c : Int, csInv (csTake s c).2 ∧ s.pos ≤ (csTake s c).2.pos) ∧
  (∀ p : Char → Bool, csInv (csTakeIf s p).2 ∧ s.pos ≤ (csTakeIf s p).2.pos) ∧
  (∀ p : Char → Bool, csInv (csTakeWhile s p).2 ∧ s.pos ≤ (csTakeWhile s p).2.pos)

/-- A concrete vertex for exercising `update_pdf`: one guard on
condition `cond1`, a sampled value under the name `x1`, a constant
log-pdf capability. -/
def c5vertex : PdfVertex Unit :=
  { name := "x1"
    conditions := [("cond1", true)]
    evaluate := fun _ => ()
    log_pdf := fun _ _ => 3
    observeVal := none }

/-! ## Theorems -/

/-- Applying any sequence of `__setitem__` calls to any category table
leaves it unchanged. -/
theorem ccApplyAll_id : ∀ (updates : List (CCKey × CatCode)) (t : List CatCode),
    ccApplyAll t updates = t := by
  intro updates
  induction updates with
  | nil => intro t; rfl
  | cons u us ih =>
    intro t
    have hstep : (match ccSetitem t u.1 u.2 with
        | .ok r => r
        | .error _ => t) = t := by
      rcases u with ⟨k, v⟩
      cases k with
      | strK str =>
        by_cases hc : str.length = 1 <;> simp [ccSetitem, hc]
      | intK n =>
        by_cases hc : 0 ≤ n ∧ n < (t.length : Int) <;> simp [ccSetitem, hc]
      | otherK => rfl
    simp only [ccApplyAll, List.foldl_cons] at *
    rw [hstep]
    exact ih t

/-- C9: `CategoryCodes.__setitem__` never stores the assigned category:
every call either raises `TypeError` or returns with the table exactly
as it was, so the table permanently keeps the constructor's default
categories and any client reconfiguration (such as the Clojure lexer's)
has no effect on it. -/
theorem claim_C9_theorem :
    (∀ (t : List CatCode) (k : CCKey) (v : CatCode),
      ccSetitem t k v = Except.ok t ∨ ccSetitem t k v = Except.error "TypeError") ∧
    (∀ updates : List (CCKey × CatCode),
      ccApplyAll defaultCatcodes updates = defaultCatcodes) := by
  constructor
  · intro t k v
    cases k with
    | strK str =>
      simp only [ccSetitem]
      split <;> simp
    | intK n =>
      simp only [ccSetitem]
      split <;> simp
    | otherK =>
      simp [ccSetitem]
  · intro updates
    exact ccApplyAll_id updates _

/-- C7: `AstCompare.__init__` does not record the chained part it was
given: with `second_op = None` and `second_right = None` the stored
`second_op` is the first operator (here `"<"`), not `None`; and with a
chained comparison `(second_op = "<=", second_right)` the stored
`second_op` is again the first operator, not the one passed in.  (The
class's own `assert` and `__repr__` treat `second_op is None` as "no
chain present", which the stored value contradicts.) -/
theorem claim_C7_code_bug :
    mkAstCompare (PAst.value (PyVal.pint 1)) "<" (PAst.value (PyVal.pint 2))
        none none
      = some (PAst.compare (PAst.value (PyVal.pint 1)) "<"
          (PAst.value (PyVal.pint 2)) (some "<") none) ∧
    mkAstCompare (PAst.value (PyVal.pint 1)) "<" (PAst.value (PyVal.pint 2))
        (some "<=") (some (PAst.value (PyVal.pint 2)))
      = some (PAst.compare (PAst.value (PyVal.pint 1)) "<"
          (PAst.value (PyVal.pint 2)) (some "<")
          (some (PAst.value (PyVal.pint 2)))) :=
  ⟨rfl, rfl⟩

/-- C4 (counterexample): the optimizer is not idempotent.  On
`(x + 0) - (x + 0)` a first run returns `x - x` (the same-symbol
cancellation in `visit_binary` inspects the operands *before* the
children are visited), and a second run on that output returns the
literal `0`. -/
theorem claim_C4_counterexample :
    optimize 20 c4input
      = .ok (PAst.binary (PAst.symbol "x" false) "-" (PAst.symbol "x" false)) ∧
    optimize 20 (PAst.binary (PAst.symbol "x" false) "-" (PAst.symbol "x" false))
      = .ok (PAst.value (PyVal.pint 0)) ∧
    PAst.binary (PAst.symbol "x" false) "-" (PAst.symbol "x" false)
      ≠ PAst.value (PyVal.pint 0) :=
  ⟨rfl, rfl, fun h => PAst.noConfusion h⟩

/-- C4 (as amended): a second optimizer run can strictly simplify the
first run's output, so idempotence fails in general; an input is stable
under further runs exactly when a run returns it unchanged — in
particular literal values and unresolved symbols are returned unchanged
by every run. -/
theorem claim_C4_theorem :
    (∃ e r1 r2 : PAst,
      optimize 20 e = .ok r1 ∧ optimize 20 r1 = .ok r2 ∧ r1 ≠ r2) ∧
    (∀ (fuel : Nat) (v : PyVal),
      optimize (fuel + 1) (.value v) = .ok (.value v)) ∧
    (∀ (fuel : Nat) (n : String) (p : Bool),
      optimize (fuel + 1) (.symbol n p) = .ok (.symbol n p)) := by
  refine ⟨⟨c4input, _, _, rfl, rfl, fun h => PAst.noConfusion h⟩, ?_, ?_⟩
  · intro fuel v
    rfl
  · intro fuel n p
    cases p <;> rfl

/-- C3 (counterexample): the ϕ-definitions do not cover every name
assigned in a branch.  For `if c: (x := 1)` with no prior definition of
`x`, the SSA pass returns the `If` unchanged — no ϕ-definition for `x`
is placed after it (`visit_if` skips every key that has no current
definition outside the branches). -/
theorem claim_C3_counterexample :
    ssaVisit 20 ssaInit c3input
      = .ok (c3input,
          { counters := [("x", 1)], scopes := [[]], tempCount := 0 }) :=
  rfl

/-- C6 (counterexample): the zero-argument arithmetic form does not
always yield the operator's identity element.  `(bit-or)` parses to the
literal `1`, but `1` is not an identity for `|`: `0 | 1 = 1 ≠ 0`. -/
theorem claim_C6_counterexample :
    cljVisit 5 (CljAst.form [CljAst.symbol "bit-or"])
      = .ok (PAst.value (PyVal.pint 1)) ∧
    pyBinOp "|" (PyVal.pint 0) (PyVal.pint 1) = some (PyVal.pint 1) ∧
    PyVal.pint 1 ≠ PyVal.pint 0 := by
  exact ⟨rfl, rfl, by decide⟩

/-- C10 (counterexample): `skip` with a negative count both decreases the
position and pushes it below 0: on a fresh one-character stream,
`skip(-1)` sets the position to `-1`. -/
theorem claim_C10_counterexample :
    (csSkip (CharStream.mk ['a'] 0) (-1)).pos = -1 ∧
    ¬ (0 ≤ (csSkip (CharStream.mk ['a'] 0) (-1)).pos) ∧
    (csSkip (CharStream.mk ['a'] 0) (-1)).pos < (CharStream.mk ['a'] 0).pos := by
  refine ⟨by decide, by decide, by decide⟩

/-- C8 (counterexample): the error raised for an invalid character does
not carry the character's position.  The same `SyntaxError` payload —
built only from `hex(ord(c))` and the character — is raised whether the
invalid character (BEL here) sits at position 0 or at position 1, so the
position cannot be recovered from the error. -/
theorem claim_C8_counterexample :
    lexNext defaultLexer 5 (CharStream.mk [Char.ofNat 7] 0)
      = .error (.invalidCharacter (pyHex 7) (Char.ofNat 7)) ∧
    lexNext defaultLexer 5 (CharStream.mk [' ', Char.ofNat 7] 0)
      = .error (.invalidCharacter (pyHex 7) (Char.ofNat 7)) ∧
    lexNext defaultLexer 5 (CharStream.mk [Char.ofNat 7] 0)
      = lexNext defaultLexer 5 (CharStream.mk [' ', Char.ofNat 7] 0) ∧
    [Char.ofNat 7].findIdx (fun c => c = Char.ofNat 7) = 0 ∧
    [' ', Char.ofNat 7].findIdx (fun c => c = Char.ofNat 7) = 1 := by
  have h1 : lexNext defaultLexer 5 (CharStream.mk [Char.ofNat 7] 0)
      = .error (.invalidCharacter (pyHex 7) (Char.ofNat 7)) := rfl
  have h2 : lexNext defaultLexer 5 (CharStream.mk [' ', Char.ofNat 7] 0)
      = .error (.invalidCharacter (pyHex 7) (Char.ofNat 7)) := rfl
  exact ⟨h1, h2, h1.trans h2.symm, by decide, by decide⟩

/-- C8 (as amended): whenever `Lexer.__next__` reads a character whose
category is `INVALID` (with no comment delimiters configured, as in the
constructor's defaults), tokenization fails with the `SyntaxError`
whose payload is built from the character's codepoint (`hex(ord(c))`)
and the character itself — not its position — and no token is
produced. -/
theorem claim_C8_theorem :
    ∀ (lx : Lexer) (s : CharStream) (fuel : Nat),
      lx.lineComment = none →
      lx.blockCommentStart = none →
      csEof s = false →
      catcodeOf lx.catcodes (csCurrent s) = .ok CatCode.invalid →
      lexNext lx (fuel + 1) s =
        .error (.invalidCharacter (pyHex (csCurrent s).toNat) (csCurrent s)) := by
  intro lx s fuel h1 h2 h3 h4
  simp [lexNext, h1, h2, h3, h4, csTest]

/-- C8 witness: the amended theorem applied to the one-character BEL
stream under the default lexer. -/
theorem claim_C8_witness :
    (defaultLexer.lineComment = none ∧
     defaultLexer.blockCommentStart = none ∧
     csEof (CharStream.mk [Char.ofNat 7] 0) = false ∧
     catcodeOf defaultLexer.catcodes (csCurrent (CharStream.mk [Char.ofNat 7] 0))
       = .ok CatCode.invalid) ∧
    lexNext defaultLexer (4 + 1) (CharStream.mk [Char.ofNat 7] 0)
      = .error (.invalidCharacter
          (pyHex (csCurrent (CharStream.mk [Char.ofNat 7] 0)).toNat)
          (csCurrent (CharStream.mk [Char.ofNat 7] 0))) :=
  ⟨⟨rfl, rfl, rfl, rfl⟩,
    claim_C8_theorem defaultLexer (CharStream.mk [Char.ofNat 7] 0) 4
      rfl rfl rfl rfl⟩

/-- Folding the digit-accumulation step of `extract_number` over the
decimal digits of `n` from accumulator 0 recovers `n`. -/
theorem natDigitsAux_extract :
    ∀ (fuel n : Nat), n < fuel →
      (natDigitsAux fuel n).foldl
        (fun r c => if '0' ≤ c ∧ c ≤ '9' then r * 10 + (c.toNat - 48) else r) 0
        = n := by
  intro fuel
  induction fuel with
  | zero => intro n h; omega
  | succ f ih =>
    intro n h
    by_cases h10 : n < 10
    · have hd : n % 10 = n := Nat.mod_eq_of_lt h10
      simp only [natDigitsAux, if_pos h10, List.foldl_cons, List.foldl_nil]
      have hval : (Char.ofNat (48 + n)).toNat = 48 + n := by
        interval_cases n <;> decide
      have hdig : ('0' ≤ Char.ofNat (48 + n) ∧ Char.ofNat (48 + n) ≤ '9') := by
        interval_cases n <;> exact ⟨by decide, by decide⟩
      rw [if_pos hdig, hval]
      omega
    · simp only [natDigitsAux, if_neg h10, List.foldl_append, List.foldl_cons,
        List.foldl_nil]
      have hrec : n / 10 < f := by omega
      rw [ih (n / 10) hrec]
      have h9 : n % 10 < 10 := Nat.mod_lt _ (by norm_num)
      have hval : (Char.ofNat (48 + n % 10)).toNat = 48 + n % 10 := by
        interval_cases h : (n % 10) <;> decide
      have hdig : ('0' ≤ Char.ofNat (48 + n % 10) ∧
          Char.ofNat (48 + n % 10) ≤ '9') := by
        interval_cases h : (n % 10) <;> exact ⟨by decide, by decide⟩
      rw [if_pos hdig, hval]
      omega

/-- `extract_number` ignores a digit-free prefix. -/
theorem extract_number_append (pre tail : List Char)
    (h : ∀ c ∈ pre, ¬('0' ≤ c ∧ c ≤ '9')) :
    extract_number (pre ++ tail) = extract_number tail := by
  unfold extract_number
  rw [List.foldl_append]
  have : pre.foldl
      (fun r c => if '0' ≤ c ∧ c ≤ '9' then r * 10 + (c.toNat - 48) else r) 0
      = 0 := by
    induction pre with
    | nil => rfl
    | cons c cs ih =>
      have hc := h c (by simp)
      simp only [List.foldl_cons, if_neg hc]
      exact ih (fun c hc2 => h c (by simp [hc2]))
  rw [this]

/-- Sorting node names by their embedded number recovers the creation
counter: `extract_number` of a generated vertex name is exactly the
vertex's counter value. -/
theorem extract_number_vertexName (v : VertexData) :
    extract_number (vertexName v) = v.num := by
  unfold vertexName
  cases hobs : v.observed <;>
    simp only [Bool.false_eq_true, if_pos, if_neg, ite_true, ite_false] <;>
    rw [extract_number_append _ _ (by intro c hc; simp at hc; subst hc; decide)] <;>
    · unfold extract_number natDigits
      exact natDigitsAux_extract (v.num + 1) v.num (by omega)

/-- C1: on the failing input
`(observe (normal 0 1) (sample (normal 0 1)))` the compiled model
violates the ordering claim.  Sorting by the embedded number does
recover the creation counter (first conjunct), but `visit_observe`
returns `Graph({vertex}).merge(graph)` — dropping the graph of the
observed value — so the sampled vertex `x30001`, although recorded as an
ancestor of the observed vertex `y30002`, is missing from the model's
vertex set and from the ordered node list entirely: it appears at no
position, let alone an earlier one. -/
theorem claim_C1_code_bug :
    (∀ v : VertexData, extract_number (vertexName v) = v.num) ∧
    (c1result.1.verts.find? (fun v => v.num = 30002)).map VertexData.ancestors
      = some [30001] ∧
    (c1result.1.verts.find? (fun v => v.num = 30001)).isSome = true ∧
    c1result.2 = [30002] ∧
    (get_ordered_list_of_all_nodes c1result.1 c1result.2).map fnodeNum
      = [30002] ∧
    30001 ∉ (get_ordered_list_of_all_nodes c1result.1 c1result.2).map fnodeNum :=
  ⟨extract_number_vertexName, by decide, by decide, by decide, by decide,
    by decide⟩

/-- C2 (counterexample): after compiling
`(let [a (sample (normal 0 1))] (if (> a 0) (sample (normal a 1))
(sample (normal 0 1))))`, the vertex `x30003` (the then-branch sample)
has the ancestor-closure `{x30001}`, and `x30001` is an ancestor of the
condition node `cond_30002` — so the claim requires
`cond_30002 ∈ x30003.dependent_conditions` — yet the propagation at the
condition's creation reached only `x30001`, and `x30003`'s
`dependent_conditions` is empty. -/
theorem claim_C2_counterexample :
    (c2result.verts.map VertexData.num) = [30001, 30003, 30004] ∧
    (c2result.conds.map CondData.num) = [30002] ∧
    30001 ∈ getAllAncestors c2result.verts 10 30003 ∧
    (c2result.conds.find? (fun c => c.num = 30002)).map CondData.ancestors
      = some [30001] ∧
    30002 ∉ depsOf c2result.verts 30003 ∧
    30002 ∈ depsOf c2result.verts 30001 :=
  ⟨by decide, by decide, by decide, by decide, by decide, by decide⟩

/-- The scan loop never moves the index backwards. -/
theorem csScanEndAux_ge (src : List Char) (p : Char → Bool) :
    ∀ (fuel : Nat) (i : Int), i ≤ csScanEndAux src p fuel i := by
  intro fuel
  induction fuel with
  | zero => intro i; simp [csScanEndAux]
  | succ f ih =>
    intro i
    simp only [csScanEndAux]
    split
    · have := ih (i + 1)
      omega
    · omega

/-- The scan loop never moves the index past the length. -/
theorem csScanEndAux_le (src : List Char) (p : Char → Bool) :
    ∀ (fuel : Nat) (i : Int), i ≤ (src.length : Int) →
      csScanEndAux src p fuel i ≤ (src.length : Int) := by
  intro fuel
  induction fuel with
  | zero => intro i h; simpa [csScanEndAux] using h
  | succ f ih =>
    intro i h
    simp only [csScanEndAux]
    split
    · rename_i hc
      exact ih (i + 1) (by omega)
    · exact h

/-- The position and source fields after each mutating operation. -/
theorem csDrop_pos (s : CharStream) (c : Int) :
    (csDrop s c).pos =
      if 0 < c then min (s.pos + c) (s.source.length : Int) else s.pos := by
  simp only [csDrop]
  split <;> rfl

/-- `drop` leaves the text unchanged. -/
theorem csDrop_source (s : CharStream) (c : Int) :
    (csDrop s c).source = s.source := by
  simp only [csDrop]
  split <;> rfl

/-- `next` advances by one inside the text. -/
theorem csNext_pos (s : CharStream) :
    (csNext s).2.pos =
      if s.pos < (s.source.length : Int) then s.pos + 1 else s.pos := by
  simp only [csNext]
  split <;> rfl

/-- `next` leaves the text unchanged. -/
theorem csNext_source (s : CharStream) : (csNext s).2.source = s.source := by
  simp only [csNext]
  split <;> rfl

/-- `take` clamps like `skip` for positive counts. -/
theorem csTake_pos (s : CharStream) (c : Int) :
    (csTake s c).2.pos =
      if 0 < c then min (s.source.length : Int) (s.pos + c) else s.pos := by
  simp only [csTake]
  split <;> rfl

/-- `take` leaves the text unchanged. -/
theorem csTake_source (s : CharStream) (c : Int) :
    (csTake s c).2.source = s.source := by
  simp only [csTake]
  split <;> rfl

/-- `take_if` advances by at most one. -/
theorem csTakeIf_pos (s : CharStream) (p : Char → Bool) :
    (csTakeIf s p).2.pos =
      if s.pos < (s.source.length : Int) ∧ p (pyCharAt s.source s.pos)
      then s.pos + 1 else s.pos := by
  simp only [csTakeIf]
  split <;> rfl

/-- `take_if` leaves the text unchanged. -/
theorem csTakeIf_source (s : CharStream) (p : Char → Bool) :
    (csTakeIf s p).2.source = s.source := by
  simp only [csTakeIf]
  split <;> rfl

/-- C10 (as amended): `__getitem__` and `peek` return the default
character for every out-of-range index, and every mutating operation
preserves `0 ≤ pos ≤ len` and never decreases the position — with the
single exception that `skip` needs a non-negative count (a negative
count decreases the position and can push it below 0, see the
counterexample). -/
theorem claim_C10_theorem : ∀ s : CharStream, csInv s → CsSafe s := by
  intro s hinv
  obtain ⟨h0, hlen⟩ := hinv
  refine ⟨?_, ?_, ?_, ?_, ?_, ?_, ?_, ?_, ?_⟩
  · intro i hi
    simp only [csGet]
    rw [if_neg (by omega)]
  · intro i hi
    simp only [csPeek, csGet]
    rw [if_neg (by omega)]
  · intro c
    simp only [csInv, csDrop_pos, csDrop_source]
    split <;> omega
  · intro p
    have h1 := csScanEndAux_ge s.source p (((s.source.length : Int) - s.pos).toNat) s.pos
    have h2 := csScanEndAux_le s.source p (((s.source.length : Int) - s.pos).toNat) s.pos hlen
    simp only [csInv, csDropWhile, csScanEnd]
    exact ⟨⟨by omega, by omega⟩, by omega⟩
  · simp only [csInv, csNext_pos, csNext_source]
    split <;> omega
  · intro c hc
    simp only [csInv, csSkip]
    exact ⟨⟨by omega, by omega⟩, by omega⟩
  · intro c
    simp only [csInv, csTake_pos, csTake_source]
    split <;> omega
  · intro p
    simp only [csInv, csTakeIf_pos, csTakeIf_source]
    split <;> omega
  · intro p
    have h1 := csScanEndAux_ge s.source p (((s.source.length : Int) - s.pos).toNat) s.pos
    have h2 := csScanEndAux_le s.source p (((s.source.length : Int) - s.pos).toNat) s.pos hlen
    simp only [csInv, csTakeWhile, csScanEnd]
    exact ⟨⟨by omega, by omega⟩, by omega⟩

/-- C10 witness: the amended theorem applied to a fresh one-character
stream. -/
theorem claim_C10_witness :
    csInv (CharStream.mk ['a'] 0) ∧ CsSafe (CharStream.mk ['a'] 0) :=
  ⟨⟨by norm_num, by norm_num⟩,
    claim_C10_theorem (CharStream.mk ['a'] 0) ⟨by norm_num, by norm_num⟩⟩

/-- With every guarded name present in the state, a mismatch somewhere in
the guard list makes the guard loop answer `false` (the early
`return 0.0`). -/
theorem checkConditions_mismatch :
    ∀ (conds : List (String × Bool)) (st : List (String × PyVal)),
      (∀ p ∈ conds, (st.lookup p.1).isSome) →
      (∃ p ∈ conds, ∀ x, st.lookup p.1 = some x → pyEqBool x p.2 = false) →
      checkConditions conds st = .ok false := by
  intro conds st
  induction conds with
  | nil =>
    intro _ hmis
    obtain ⟨p, hp, _⟩ := hmis
    exact absurd hp (by simp)
  | cons c rest ih =>
    intro hpres hmis
    obtain ⟨v, hv⟩ := Option.isSome_iff_exists.mp (hpres c (by simp))
    by_cases hm : pyEqBool v c.2
    · have hrest : ∃ p ∈ rest, ∀ x, st.lookup p.1 = some x →
          pyEqBool x p.2 = false := by
        obtain ⟨p, hp, hpf⟩ := hmis
        rcases List.mem_cons.mp hp with hpc | hpr
        · subst hpc
          exact absurd hm (by simp [hpf v hv])
        · exact ⟨p, hpr, hpf⟩
      have := ih (fun p hp => hpres p (by simp [hp])) hrest
      simp only [checkConditions, hv, hm]
      simpa using this
    · simp only [checkConditions, hv]
      rw [if_pos (by simpa using hm)]

/-- With every guarded name present and matching, the guard loop answers
`true`. -/
theorem checkConditions_all :
    ∀ (conds : List (String × Bool)) (st : List (String × PyVal)),
      (∀ p ∈ conds, (st.lookup p.1).isSome) →
      (∀ p ∈ conds, ∀ x, st.lookup p.1 = some x → pyEqBool x p.2 = true) →
      checkConditions conds st = .ok true := by
  intro conds st
  induction conds with
  | nil => intro _ _; rfl
  | cons c rest ih =>
    intro hpres hall
    obtain ⟨v, hv⟩ := Option.isSome_iff_exists.mp (hpres c (by simp))
    have hm : pyEqBool v c.2 = true := hall c (by simp) v hv
    simp only [checkConditions, hv, hm]
    exact ih (fun p hp => hpres p (by simp [hp]))
      (fun p hp => hall p (by simp [hp]))

/-- C5: the log-pdf contribution of a vertex is gated by its
`(condition, truth value)` pairs: with every guarded name present in the
state, a mismatch makes `update_pdf` return `0.0` with the state (and in
particular `state['log_pdf']`) untouched; with all guards matching it
adds the contribution to `state['log_pdf']` and returns it — and that
contribution is the distribution's log-pdf of the vertex's value (the
observation for an observed vertex, the stored sample for a sampled
one). -/
theorem claim_C5_theorem :
    ∀ (D : Type) (v : PdfVertex D) (st : List (String × PyVal)),
      (∀ p ∈ v.conditions, (st.lookup p.1).isSome) →
      ((∃ p ∈ v.conditions, ∀ x, st.lookup p.1 = some x →
          pyEqBool x p.2 = false) →
        update_pdf v st = .ok (0, st)) ∧
      ((∀ p ∈ v.conditions, ∀ x, st.lookup p.1 = some x →
          pyEqBool x p.2 = true) →
        update_pdf v st = .ok (vertexLogPdf v st,
          pdfSet st "log_pdf" (.pfloat (statePdf st + vertexLogPdf v st)))) ∧
      (∀ f, v.observeVal = some f →
        vertexLogPdf v st = v.log_pdf (v.evaluate st) (f st)) ∧
      (v.observeVal = none → ∀ x, st.lookup v.name = some x →
        vertexLogPdf v st = v.log_pdf (v.evaluate st) x) := by
  intro D v st hpres
  refine ⟨?_, ?_, ?_, ?_⟩
  · intro hmis
    unfold update_pdf
    rw [checkConditions_mismatch v.conditions st hpres hmis]
  · intro hall
    unfold update_pdf
    rw [checkConditions_all v.conditions st hpres hall]
  · intro f hf
    unfold vertexLogPdf
    rw [hf]
  · intro hn x hx
    unfold vertexLogPdf
    rw [hn, hx]

/-- C5 witness: the theorem applied to a concrete guarded vertex whose
guard matches; the contribution 3 is added to an absent accumulator. -/
theorem claim_C5_witness :
    update_pdf c5vertex [("cond1", PyVal.pbool true), ("x1", PyVal.pint 2)]
      = .ok (3, [("cond1", PyVal.pbool true), ("x1", PyVal.pint 2),
          ("log_pdf", PyVal.pfloat 3)]) := by
  have h := (claim_C5_theorem Unit c5vertex
      [("cond1", PyVal.pbool true), ("x1", PyVal.pint 2)]
      (by decide)).2.1 (by decide)
  rw [h]
  simp [vertexLogPdf, c5vertex, statePdf, pdfSet, List.lookup]

/-- C6 (as amended): an n-ary arithmetic form with at least two
translated arguments folds left into nested binary nodes (with the
bit-operator heads renamed to `&`/`|`/`^`), and the zero-argument form
yields the literal `0` for `+`/`-` and the literal `1` for every other
operator of the group — which is the identity element for `*`, `/` and
`and`, but not for `or`, `bit-and`, `bit-or` or `bit-xor` (see the
counterexample). -/
theorem claim_C6_theorem :
    (∀ (fuel : Nat) (op : String) (t : List CljAst) (args : List PAst)
        (a b : PAst) (rest : List PAst),
      cljArithOps.contains op = true →
      t.mapM (cljVisit (fuel + 1)) = .ok args →
      args = a :: b :: rest →
      cljVisit (fuel + 1 + 1) (.form (.symbol op :: t)) =
        .ok ((b :: rest).foldl
          (fun acc x => PAst.binary acc (cljRenameOp op) x) a)) ∧
    (∀ (fuel : Nat) (op : String), cljArithOps.contains op = true →
      cljVisit (fuel + 1 + 1) (.form [.symbol op]) =
        .ok (PAst.value (PyVal.pint (if op = "+" ∨ op = "-" then 0 else 1)))) := by
  constructor
  · intro fuel op t args a b rest hop hargs hshape
    subst hshape
    have e1 : cljVisit (fuel + 1 + 1) (.form (.symbol op :: t))
        = (t.mapM (cljVisit (fuel + 1))).bind
            (cljFormRest (PAst.symbol op false)) := rfl
    rw [e1, hargs]
    have hmem : op ∈ cljArithOps := by
      simpa using hop
    fin_cases hmem <;>
      simp [cljFormRest, cljRenameOp, Except.bind, cljArithOps, cljCmpHeads]
  · intro fuel op hop
    have e1 : cljVisit (fuel + 1 + 1) (.form [.symbol op])
        = cljFormRest (PAst.symbol op false) [] := rfl
    rw [e1]
    have hmem : op ∈ cljArithOps := by
      simpa using hop
    fin_cases hmem <;> rfl

/-- Witness for the amended C6 statement at a concrete input: the
three-element form `(* 2 3)` folds into one binary node, and the
zero-argument form `(+)` yields the literal `0`. -/
theorem claim_C6_witness :
    (cljArithOps.contains "*" = true
      ∧ [CljAst.value (PyVal.pint 2), CljAst.value (PyVal.pint 3)].mapM (cljVisit 1)
          = Except.ok [PAst.value (PyVal.pint 2), PAst.value (PyVal.pint 3)]
      ∧ cljVisit 2 (CljAst.form [CljAst.symbol "*",
            CljAst.value (PyVal.pint 2), CljAst.value (PyVal.pint 3)])
          = Except.ok (PAst.binary (PAst.value (PyVal.pint 2)) "*"
              (PAst.value (PyVal.pint 3))))
    ∧ cljArithOps.contains "+" = true
    ∧ cljVisit 2 (CljAst.form [CljAst.symbol "+"])
        = Except.ok (PAst.value (PyVal.pint 0)) :=
  ⟨⟨rfl, rfl,
    claim_C6_theorem.1 0 "*"
      [CljAst.value (PyVal.pint 2), CljAst.value (PyVal.pint 3)]
      [PAst.value (PyVal.pint 2), PAst.value (PyVal.pint 3)]
      (PAst.value (PyVal.pint 2)) (PAst.value (PyVal.pint 3)) []
      rfl rfl rfl⟩,
   rfl,
   claim_C6_theorem.2 0 "+" rfl⟩

/-- Looking up a name other than the overwritten one is unchanged by the
in-place counter update performed by `new_symbol_instance`. -/
theorem lookup_map_setKey (l : List (String × Nat)) (k k₁ : String) (c : Nat)
    (h : k₁ ≠ k) :
    (l.map (fun p => if p.1 = k then (k, c) else p)).lookup k₁ = l.lookup k₁ := by
  induction l with
  | nil => rfl
  | cons p rest ih =>
    obtain ⟨a, b⟩ := p
    by_cases hp : a = k
    · subst hp
      simp [List.lookup_cons, beq_false_of_ne h, ih]
    · simp only [List.map_cons]
      rw [if_neg (by simpa using hp), List.lookup_cons, List.lookup_cons]
      cases hak : (k₁ == a) with
      | true => rfl
      | false => exact ih

/-- Appending a fresh counter entry does not affect the lookup of another
name. -/
theorem lookup_append_single (l : List (String × Nat)) (k k₁ : String) (c : Nat)
    (h : k₁ ≠ k) :
    (l ++ [(k, c)]).lookup k₁ = l.lookup k₁ := by
  induction l with
  | nil => simp [List.lookup_cons, beq_false_of_ne h]
  | cons p rest ih =>
    obtain ⟨a, b⟩ := p
    simp only [List.cons_append]
    rw [List.lookup_cons, List.lookup_cons]
    cases hak : (k₁ == a) with
    | true => rfl
    | false => exact ih

/-- Overwriting a bound name in a scope makes it look up to the new
instance. -/
theorem lookup_map_setKey_self (l : List (String × String)) (k v : String)
    (hany : l.any (fun p => p.1 = k) = true) :
    (l.map (fun p => if p.1 = k then (k, v) else p)).lookup k = some v := by
  induction l with
  | nil => simp at hany
  | cons p rest ih =>
    obtain ⟨a, b⟩ := p
    by_cases hp : a = k
    · subst hp
      simp [List.lookup_cons]
    · simp only [List.any_cons, Bool.or_eq_true, decide_eq_true_eq] at hany
      rcases hany with hx | hx
      · exact absurd hx hp
      · simp only [List.map_cons]
        rw [if_neg (by simpa using hp), List.lookup_cons,
          beq_false_of_ne (Ne.symm hp)]
        exact ih hx

/-- Appending a binding for an unbound name makes it look up to the new
instance. -/
theorem lookup_append_self (l : List (String × String)) (k v : String)
    (hany : ∀ p ∈ l, p.1 ≠ k) :
    (l ++ [(k, v)]).lookup k = some v := by
  induction l with
  | nil => simp [List.lookup_cons]
  | cons p rest ih =>
    obtain ⟨a, b⟩ := p
    have ha : a ≠ k := hany (a, b) (List.mem_cons_self _ _)
    simp only [List.cons_append]
    rw [List.lookup_cons, beq_false_of_ne (Ne.symm ha)]
    exact ih (fun p hp => hany p (List.mem_cons_of_mem _ hp))

/-- `assocSet` binds its key. -/
theorem assocSet_lookup_self (l : List (String × String)) (k v : String) :
    (assocSet l k v).lookup k = some v := by
  unfold assocSet
  split
  · exact lookup_map_setKey_self l k v (by assumption)
  · rename_i hany
    refine lookup_append_self l k v (fun p hp he => hany ?_)
    exact List.any_eq_true.mpr ⟨p, hp, by simpa using he⟩

/-- The in-place scope update for one name does not change whether some
other name is bound in the scope. -/
theorem any_map_setKey (l : List (String × String)) (k k₁ v : String)
    (h : k₁ ≠ k) :
    ((l.map (fun p => if p.1 = k then (k, v) else p)).any (fun p => p.1 = k₁))
      = l.any (fun p => p.1 = k₁) := by
  induction l with
  | nil => rfl
  | cons p rest ih =>
    obtain ⟨a, b⟩ := p
    by_cases hp : a = k
    · subst hp
      simp [List.any_cons, Ne.symm h, ih]
    · simp only [List.map_cons]
      rw [if_neg (by simpa using hp)]
      simp [List.any_cons, ih]

/-- `assocSet` does not change whether another name is bound. -/
theorem assocSet_any_other (l : List (String × String)) (k k₁ v : String)
    (h : k₁ ≠ k) :
    (assocSet l k v).any (fun p => p.1 = k₁) = l.any (fun p => p.1 = k₁) := by
  unfold assocSet
  split
  · exact any_map_setKey l k k₁ v h
  · simp [List.any_append, Ne.symm h]

/-- The fresh instance name returned by `new_symbol_instance`. -/
theorem newSymbolInstance_fst (st : SsaState) (k : String) :
    (newSymbolInstance st k).1 = ssaInstanceName k (ssaCounterOf st k + 1) :=
  rfl

/-- `new_symbol_instance` leaves the counters of other names unchanged. -/
theorem newSymbolInstance_counter_other (st : SsaState) (k k₁ : String)
    (h : k₁ ≠ k) :
    ssaCounterOf (newSymbolInstance st k).2 k₁ = ssaCounterOf st k₁ := by
  unfold ssaCounterOf
  have hc : (newSymbolInstance st k).2.counters
      = if st.counters.any (fun p => p.1 = k) then
          st.counters.map
            (fun p => if p.1 = k then (k, ssaCounterOf st k + 1) else p)
        else st.counters ++ [(k, ssaCounterOf st k + 1)] := rfl
  rw [hc]
  split
  · rw [lookup_map_setKey _ _ _ _ h]
  · rw [lookup_append_single _ _ _ _ h]

/-- `new_symbol_instance` leaves the visibility of other names
unchanged. -/
theorem newSymbolInstance_has_other (st : SsaState) (k k₁ : String)
    (h : k₁ ≠ k) :
    hasCurrentSymbol (newSymbolInstance st k).2 k₁ = hasCurrentSymbol st k₁ := by
  unfold hasCurrentSymbol
  cases hsc : st.scopes with
  | nil => simp [newSymbolInstance, hsc]
  | cons top rest =>
    have hs : (newSymbolInstance st k).2.scopes
        = assocSet top k (ssaInstanceName k (ssaCounterOf st k + 1)) :: rest := by
      simp [newSymbolInstance, hsc]
    rw [hs]
    simp only [List.any_cons]
    rw [assocSet_any_other _ _ _ _ h]

/-- `new_symbol_instance` keeps the scope stack non-empty. -/
theorem newSymbolInstance_scopes_ne (st : SsaState) (k : String)
    (h : st.scopes ≠ []) :
    (newSymbolInstance st k).2.scopes ≠ [] := by
  unfold newSymbolInstance
  cases hsc : st.scopes with
  | nil => exact absurd hsc h
  | cons top rest => simp [hsc]

/-- After `new_symbol_instance`, the current symbol of the re-bound name
is the fresh instance: this is what `access_symbol` then returns for the
one-sided ϕ-definitions of `visit_if`. -/
theorem newSymbolInstance_get_self (st : SsaState) (k : String)
    (h : st.scopes ≠ []) :
    getCurrentSymbol (newSymbolInstance st k).2 k
      = ssaInstanceName k (ssaCounterOf st k + 1) := by
  cases hsc : st.scopes with
  | nil => exact absurd hsc h
  | cons top rest =>
    have hs : (newSymbolInstance st k).2.scopes
        = assocSet top k (ssaInstanceName k (ssaCounterOf st k + 1)) :: rest := by
      simp [newSymbolInstance, hsc]
    unfold getCurrentSymbol
    rw [hs]
    simp only [getCurrentSymbol.walk]
    rw [assocSet_lookup_self]

/-- One step of the ϕ-emission loop: a key assigned in neither branch
yields nothing. -/
theorem ssaPhiLoop_cons_none (ifSyms elseSyms : List (String × String))
    (test : PAst) (key : String) (rest : List String) (st : SsaState)
    (hif : ifSyms.lookup key = none) (hel : elseSyms.lookup key = none) :
    ssaPhiLoop ifSyms elseSyms test (key :: rest) st
      = ssaPhiLoop ifSyms elseSyms test rest st := by
  simp only [ssaPhiLoop, hif, hel]

/-- One step of the ϕ-emission loop: a key assigned in both branches
yields a ϕ-definition over the two branch instances. -/
theorem ssaPhiLoop_cons_both (ifSyms elseSyms : List (String × String))
    (test : PAst) (key : String) (rest : List String) (st : SsaState)
    (a b : String)
    (hif : ifSyms.lookup key = some a) (hel : elseSyms.lookup key = some b) :
    (ssaPhiLoop ifSyms elseSyms test (key :: rest) st).1
      = ssaPhi (newSymbolInstance st key).1 test a b
          :: (ssaPhiLoop ifSyms elseSyms test rest (newSymbolInstance st key).2).1 := by
  simp only [ssaPhiLoop, hif, hel]

/-- One step of the ϕ-emission loop: a key assigned only in the `if`
branch and with no current outer definition is skipped. -/
theorem ssaPhiLoop_cons_if_skip (ifSyms elseSyms : List (String × String))
    (test : PAst) (key : String) (rest : List String) (st : SsaState)
    (a : String)
    (hif : ifSyms.lookup key = some a) (hel : elseSyms.lookup key = none)
    (hhs : hasCurrentSymbol st key = false) :
    ssaPhiLoop ifSyms elseSyms test (key :: rest) st
      = ssaPhiLoop ifSyms elseSyms test rest st := by
  simp only [ssaPhiLoop, hif, hel, hhs, Bool.not_false, if_true]

/-- One step of the ϕ-emission loop: a key assigned only in the `if`
branch, with a current outer definition, yields a ϕ-definition whose
`else` side is read back after the fresh instance has been re-bound. -/
theorem ssaPhiLoop_cons_if_phi (ifSyms elseSyms : List (String × String))
    (test : PAst) (key : String) (rest : List String) (st : SsaState)
    (a : String)
    (hif : ifSyms.lookup key = some a) (hel : elseSyms.lookup key = none)
    (hhs : hasCurrentSymbol st key = true) :
    (ssaPhiLoop ifSyms elseSyms test (key :: rest) st).1
      = ssaPhi (newSymbolInstance st key).1 test a
            (getCurrentSymbol (newSymbolInstance st key).2 key)
          :: (ssaPhiLoop ifSyms elseSyms test rest (newSymbolInstance st key).2).1 := by
  simp only [ssaPhiLoop, hif, hel, hhs, Bool.not_true, Bool.false_eq_true,
    if_false]

/-- One step of the ϕ-emission loop: a key assigned only in the `else`
branch and with no current outer definition is skipped. -/
theorem ssaPhiLoop_cons_else_skip (ifSyms elseSyms : List (String × String))
    (test : PAst) (key : String) (rest : List String) (st : SsaState)
    (b : String)
    (hif : ifSyms.lookup key = none) (hel : elseSyms.lookup key = some b)
    (hhs : hasCurrentSymbol st key = false) :
    ssaPhiLoop ifSyms elseSyms test (key :: rest) st
      = ssaPhiLoop ifSyms elseSyms test rest st := by
  simp only [ssaPhiLoop, hif, hel, hhs, Bool.not_false, if_true]

/-- One step of the ϕ-emission loop: a key assigned only in the `else`
branch, with a current outer definition, yields a ϕ-definition whose
`if` side is read back after the fresh instance has been re-bound. -/
theorem ssaPhiLoop_cons_else_phi (ifSyms elseSyms : List (String × String))
    (test : PAst) (key : String) (rest : List String) (st : SsaState)
    (b : String)
    (hif : ifSyms.lookup key = none) (hel : elseSyms.lookup key = some b)
    (hhs : hasCurrentSymbol st key = true) :
    (ssaPhiLoop ifSyms elseSyms test (key :: rest) st).1
      = ssaPhi (newSymbolInstance st key).1 test
            (getCurrentSymbol (newSymbolInstance st key).2 key) b
          :: (ssaPhiLoop ifSyms elseSyms test rest (newSymbolInstance st key).2).1 := by
  simp only [ssaPhiLoop, hif, hel, hhs, Bool.not_true, Bool.false_eq_true,
    if_false]

/-- The ϕ-emission loop, run over keys with pairwise distinct names from
a state whose key-relevant data agrees with `st₀`, emits exactly the
per-key ϕ-definitions described by `ssaPhiFor st₀`: distinct keys touch
disjoint counters and scope bindings, so the per-key decisions are
independent of the loop order. -/
theorem ssaPhiLoop_filterMap (keys : List String) :
    ∀ (st st₀ : SsaState) (ifSyms elseSyms : List (String × String))
      (test : PAst),
    st.scopes ≠ [] → keys.Nodup →
    (∀ k ∈ keys, ssaCounterOf st k = ssaCounterOf st₀ k ∧
      hasCurrentSymbol st k = hasCurrentSymbol st₀ k) →
    (ssaPhiLoop ifSyms elseSyms test keys st).1
      = keys.filterMap (ssaPhiFor st₀ ifSyms elseSyms test) := by
  induction keys with
  | nil => intro st st₀ ifSyms elseSyms test _ _ _; rfl
  | cons key rest ih =>
    intro st st₀ ifSyms elseSyms test hne hnd hagree
    obtain ⟨hc, hh⟩ := hagree key (List.mem_cons_self key rest)
    rw [List.nodup_cons] at hnd
    obtain ⟨hkey, hnd⟩ := hnd
    have hagr : ∀ k ∈ rest, ssaCounterOf st k = ssaCounterOf st₀ k ∧
        hasCurrentSymbol st k = hasCurrentSymbol st₀ k :=
      fun k hk => hagree k (List.mem_cons_of_mem _ hk)
    have hagr2 : ∀ k ∈ rest,
        ssaCounterOf (newSymbolInstance st key).2 k = ssaCounterOf st₀ k ∧
        hasCurrentSymbol (newSymbolInstance st key).2 k
          = hasCurrentSymbol st₀ k := by
      intro k hk
      have hkne : k ≠ key := fun he => hkey (he ▸ hk)
      rw [newSymbolInstance_counter_other st key k hkne,
        newSymbolInstance_has_other st key k hkne]
      exact hagr k hk
    have hne2 := newSymbolInstance_scopes_ne st key hne
    rw [List.filterMap_cons]
    cases hif : ifSyms.lookup key <;> cases hel : elseSyms.lookup key
    · have hfor : ssaPhiFor st₀ ifSyms elseSyms test key = none := by
        simp [ssaPhiFor, hif, hel]
      rw [hfor, ssaPhiLoop_cons_none _ _ _ _ _ _ hif hel]
      exact ih st st₀ _ _ _ hne hnd hagr
    · rename_i b
      cases hhs : hasCurrentSymbol st₀ key with
      | false =>
        have hfor : ssaPhiFor st₀ ifSyms elseSyms test key = none := by
          simp [ssaPhiFor, hif, hel, hhs]
        rw [hfor,
          ssaPhiLoop_cons_else_skip _ _ _ _ _ _ _ hif hel (hh.trans hhs)]
        exact ih st st₀ _ _ _ hne hnd hagr
      | true =>
        have hfor : ssaPhiFor st₀ ifSyms elseSyms test key
            = some (ssaPhi (ssaInstanceName key (ssaCounterOf st₀ key + 1))
                test (ssaInstanceName key (ssaCounterOf st₀ key + 1)) b) := by
          simp [ssaPhiFor, hif, hel, hhs]
        rw [hfor,
          ssaPhiLoop_cons_else_phi _ _ _ _ _ _ _ hif hel (hh.trans hhs),
          newSymbolInstance_fst, newSymbolInstance_get_self st key hne, hc]
        rw [ih (newSymbolInstance st key).2 st₀ _ _ _ hne2 hnd hagr2]
    · rename_i a
      cases hhs : hasCurrentSymbol st₀ key with
      | false =>
        have hfor : ssaPhiFor st₀ ifSyms elseSyms test key = none := by
          simp [ssaPhiFor, hif, hel, hhs]
        rw [hfor,
          ssaPhiLoop_cons_if_skip _ _ _ _ _ _ _ hif hel (hh.trans hhs)]
        exact ih st st₀ _ _ _ hne hnd hagr
      | true =>
        have hfor : ssaPhiFor st₀ ifSyms elseSyms test key
            = some (ssaPhi (ssaInstanceName key (ssaCounterOf st₀ key + 1))
                test a (ssaInstanceName key (ssaCounterOf st₀ key + 1))) := by
          simp [ssaPhiFor, hif, hel, hhs]
        rw [hfor,
          ssaPhiLoop_cons_if_phi _ _ _ _ _ _ _ hif hel (hh.trans hhs),
          newSymbolInstance_fst, newSymbolInstance_get_self st key hne, hc]
        rw [ih (newSymbolInstance st key).2 st₀ _ _ _ hne2 hnd hagr2]
    · rename_i a b
      have hfor : ssaPhiFor st₀ ifSyms elseSyms test key
          = some (ssaPhi (ssaInstanceName key (ssaCounterOf st₀ key + 1))
              test a b) := by
        simp [ssaPhiFor, hif, hel]
      rw [hfor, ssaPhiLoop_cons_both _ _ _ _ _ _ _ _ hif hel,
        newSymbolInstance_fst, hc]
      rw [ih (newSymbolInstance st key).2 st₀ _ _ _ hne2 hnd hagr2]

/-- C3 (amended): the ϕ-definitions emitted after an `If` by
`StaticAssignments.visit_if` are exactly one per key, in key order, as
described by `ssaPhiFor`: a key assigned in both branches gets
`x_n = if test then x_then else x_else` over the two branch instances; a
key assigned in only one branch gets a ϕ-definition only when the name
has a current outer definition — and the side for the unassigned branch
then names the fresh instance `x_n` itself (self-referentially), not the
outer version, because `new_symbol_instance` re-binds the current symbol
before `access_symbol` is evaluated; keys with no binding in either
branch map and no outer definition are skipped. -/
theorem claim_C3_theorem (st : SsaState) (ifSyms elseSyms : List (String × String))
    (test : PAst) (keys : List String)
    (hne : st.scopes ≠ []) (hnd : keys.Nodup) :
    (ssaPhiLoop ifSyms elseSyms test keys st).1
      = keys.filterMap (ssaPhiFor st ifSyms elseSyms test) :=
  ssaPhiLoop_filterMap keys st st ifSyms elseSyms test hne hnd
    (fun _ _ => ⟨rfl, rfl⟩)

/-- Witness for C3 at a concrete input: with outer state binding `y`
(counter 1), branch maps `if → {x ↦ x, y ↦ y4}` and `else → {y ↦ y5}`,
the loop over keys `[x, y]` skips `x` (no outer definition) and emits
the single ϕ-definition `y2 = if t then y4 else y5`. -/
theorem claim_C3_witness :
    ({ counters := [("y", 1)], scopes := [[("y", "y")]], tempCount := 0 }
        : SsaState).scopes ≠ []
    ∧ (["x", "y"] : List String).Nodup
    ∧ (ssaPhiLoop [("x", "x"), ("y", "y4")] [("y", "y5")]
        (PAst.symbol "t" false) ["x", "y"]
        { counters := [("y", 1)], scopes := [[("y", "y")]], tempCount := 0 }).1
      = ["x", "y"].filterMap
          (ssaPhiFor
            { counters := [("y", 1)], scopes := [[("y", "y")]], tempCount := 0 }
            [("x", "x"), ("y", "y4")] [("y", "y5")] (PAst.symbol "t" false)) :=
  ⟨by decide, by decide,
   claim_C3_theorem
     { counters := [("y", 1)], scopes := [[("y", "y")]], tempCount := 0 }
     [("x", "x"), ("y", "y4")] [("y", "y5")] (PAst.symbol "t" false)
     ["x", "y"] (by decide) (by decide)⟩

/-- `depsOf` on a cons store. -/
theorem depsOf_cons (v : VertexData) (rest : List VertexData) (u : Nat) :
    depsOf (v :: rest) u = if v.num = u then v.depConds else depsOf rest u := by
  by_cases hu : v.num = u <;> simp [depsOf, List.find?_cons, hu]

/-- Marking a dependent condition does not change the store shape. -/
theorem vshape_markDepCond (c vnum : Nat) (vs : List VertexData) :
    vshape (markDepCond c vnum vs) = vshape vs := by
  induction vs with
  | nil => rfl
  | cons v rest ih =>
    simp only [markDepCond, vshape, List.map_cons] at *
    rw [ih]
    have hh : (if v.num = vnum then
        { v with depConds := if v.depConds.contains c then v.depConds
                             else v.depConds ++ [c] }
      else v).num = v.num ∧
        (if v.num = vnum then
        { v with depConds := if v.depConds.contains c then v.depConds
                             else v.depConds ++ [c] }
      else v).ancestors = v.ancestors := by
      split <;> exact ⟨rfl, rfl⟩
    rw [hh.1, hh.2]

/-- `find?` on the shape mirrors `find?` on the store. -/
theorem find?_vshape (vs : List VertexData) (u : Nat) :
    (vshape vs).find? (fun p => p.1 = u)
      = (vs.find? (fun v => v.num = u)).map (fun v => (v.num, v.ancestors)) := by
  induction vs with
  | nil => rfl
  | cons v rest ih =>
    simp only [vshape, List.map_cons, List.find?_cons]
    cases hd : decide (v.num = u) with
    | true => rfl
    | false => exact ih

/-- `addDepCond` does not change the store shape. -/
theorem vshape_addDepCond (c : Nat) :
    ∀ (fuel vnum : Nat) (vs : List VertexData),
    vshape (addDepCond c fuel vnum vs) = vshape vs := by
  intro fuel
  induction fuel with
  | zero => intro vnum vs; rfl
  | succ fuel ih =>
    intro vnum vs
    have hfold : ∀ (l : List Nat) (s : List VertexData),
        vshape (l.foldl (fun s a => addDepCond c fuel a s) s) = vshape s := by
      intro l
      induction l with
      | nil => intro s; rfl
      | cons a rest ihl =>
        intro s
        rw [List.foldl_cons, ihl, ih]
    simp only [addDepCond]
    cases hf : (markDepCond c vnum vs).find? (fun v => v.num = vnum) with
    | none => exact vshape_markDepCond c vnum vs
    | some v => rw [hfold, vshape_markDepCond]

/-- Marking one vertex only ever adds to `dependent_conditions`
entries. -/
theorem mem_depsOf_markDepCond (c vnum u x : Nat) (vs : List VertexData)
    (h : x ∈ depsOf vs u) :
    x ∈ depsOf (markDepCond c vnum vs) u := by
  induction vs with
  | nil => simp [depsOf] at h
  | cons v rest ih =>
    rw [depsOf_cons] at h
    rw [markDepCond, List.map_cons, depsOf_cons]
    have hnum : (if v.num = vnum then
        { v with depConds := if v.depConds.contains c then v.depConds
                             else v.depConds ++ [c] }
      else v).num = v.num := by
      split <;> rfl
    rw [hnum]
    by_cases hu : v.num = u
    · rw [if_pos hu] at h ⊢
      have hd : (if v.num = vnum then
          { v with depConds := if v.depConds.contains c then v.depConds
                               else v.depConds ++ [c] }
        else v).depConds = if v.num = vnum then
          (if v.depConds.contains c then v.depConds else v.depConds ++ [c])
        else v.depConds := by
        split <;> rfl
      rw [hd]
      split
      · split
        · exact h
        · exact List.mem_append_left _ h
      · exact h
    · rw [if_neg hu] at h ⊢
      exact ih h

/-- After marking a vertex that exists in the store, the condition is in
its `dependent_conditions`. -/
theorem mem_depsOf_markDepCond_self (c vnum : Nat) (vs : List VertexData)
    (h : (vs.find? (fun v => v.num = vnum)).isSome) :
    c ∈ depsOf (markDepCond c vnum vs) vnum := by
  induction vs with
  | nil => simp [List.find?] at h
  | cons v rest ih =>
    rw [markDepCond, List.map_cons, depsOf_cons]
    have hnum : (if v.num = vnum then
        { v with depConds := if v.depConds.contains c then v.depConds
                             else v.depConds ++ [c] }
      else v).num = v.num := by
      split <;> rfl
    rw [hnum]
    by_cases hu : v.num = vnum
    · rw [if_pos hu]
      have hd : (if v.num = vnum then
          { v with depConds := if v.depConds.contains c then v.depConds
                               else v.depConds ++ [c] }
        else v).depConds
          = if v.depConds.contains c then v.depConds
            else v.depConds ++ [c] := by
        rw [if_pos hu]
      rw [hd]
      split
      · rename_i hcon
        exact List.mem_of_elem_eq_true hcon
      · exact List.mem_append_right _ (List.mem_singleton.mpr rfl)
    · rw [if_neg hu]
      apply ih
      rw [List.find?_cons] at h
      cases hd : decide (v.num = vnum) with
      | true => exact absurd (of_decide_eq_true hd) hu
      | false =>
        rw [hd] at h
        exact h

/-- The recursive propagation only ever adds to `dependent_conditions`
entries. -/
theorem mem_depsOf_addDepCond (c x u : Nat) :
    ∀ (fuel vnum : Nat) (vs : List VertexData),
    x ∈ depsOf vs u → x ∈ depsOf (addDepCond c fuel vnum vs) u := by
  intro fuel
  induction fuel with
  | zero => intro vnum vs h; exact h
  | succ fuel ih =>
    intro vnum vs h
    have h1 : x ∈ depsOf (markDepCond c vnum vs) u :=
      mem_depsOf_markDepCond c vnum u x vs h
    have hfold : ∀ (l : List Nat) (s : List VertexData),
        x ∈ depsOf s u →
        x ∈ depsOf (l.foldl (fun s a => addDepCond c fuel a s) s) u := by
      intro l
      induction l with
      | nil => intro s hs; exact hs
      | cons a rest ihl =>
        intro s hs
        rw [List.foldl_cons]
        exact ihl _ (ih a s hs)
    simp only [addDepCond]
    cases hf : (markDepCond c vnum vs).find? (fun v => v.num = vnum) with
    | none => exact h1
    | some v => exact hfold v.ancestors _ h1

/-- Membership in `dependent_conditions` survives the rest of a
propagation `foldl`, and is established at the point the marked root is
processed. -/
theorem mem_depsOf_foldl_apply (c u fuel b : Nat) (l : List Nat) :
    ∀ (s : List VertexData), b ∈ l →
    (∀ s₁, vshape s₁ = vshape s → c ∈ depsOf (addDepCond c fuel b s₁) u) →
    c ∈ depsOf (l.foldl (fun s a => addDepCond c fuel a s) s) u := by
  induction l with
  | nil => intro s hb; cases hb
  | cons a rest ihl =>
    intro s hb hstep
    rw [List.foldl_cons]
    by_cases hab : a = b
    · subst hab
      have hfold : ∀ (l₁ : List Nat) (s₁ : List VertexData),
          c ∈ depsOf s₁ u →
          c ∈ depsOf (l₁.foldl (fun s a => addDepCond c fuel a s) s₁) u := by
        intro l₁
        induction l₁ with
        | nil => intro s₁ hs; exact hs
        | cons a₁ rest₁ ihl₁ =>
          intro s₁ hs
          rw [List.foldl_cons]
          exact ihl₁ _ (mem_depsOf_addDepCond c c u fuel a₁ s₁ hs)
      exact hfold rest _ (hstep s rfl)
    · have hbrest : b ∈ rest := by
        cases hb with
        | head => exact absurd rfl hab
        | tail _ hx => exact hx
      exact ihl (addDepCond c fuel a s) hbrest
        (fun s₁ h₁ => hstep s₁ (h₁.trans (vshape_addDepCond c fuel a s)))

/-- The heart of the amended C2: under the creation-order invariant,
`_add_dependent_condition` run at a root `a` with enough fuel records the
condition on every store vertex in the reflexive ancestor-closure of
`a`. -/
theorem addDepCond_reaches (c : Nat) :
    ∀ (fuel : Nat) (a u : Nat) (vs : List VertexData),
    ShapeWf (vshape vs) →
    ReachesAnc (vshape vs) a u →
    a < fuel →
    ((vshape vs).find? (fun p => p.1 = u)).isSome →
    c ∈ depsOf (addDepCond c fuel a vs) u := by
  intro fuel
  induction fuel with
  | zero => intro a u vs _ _ ha _; exact absurd ha (Nat.not_lt_zero a)
  | succ fuel ih =>
    intro a u vs hwf hreach ha hfind
    rcases hreach with _ | ⟨a, b, u, e, hv, hb, hr⟩
    · have hfind2 : (vs.find? (fun v => v.num = a)).isSome := by
        rw [find?_vshape] at hfind
        simpa using hfind
      have hmark : c ∈ depsOf (markDepCond c a vs) a :=
        mem_depsOf_markDepCond_self c a vs hfind2
      simp only [addDepCond]
      cases hf : (markDepCond c a vs).find? (fun v => v.num = a) with
      | none => exact hmark
      | some v =>
        have hfold : ∀ (l₁ : List Nat) (s₁ : List VertexData),
            c ∈ depsOf s₁ a →
            c ∈ depsOf (l₁.foldl (fun s x => addDepCond c fuel x s) s₁) a := by
          intro l₁
          induction l₁ with
          | nil => intro s₁ hs; exact hs
          | cons a₁ rest₁ ihl₁ =>
            intro s₁ hs
            rw [List.foldl_cons]
            exact ihl₁ _ (mem_depsOf_addDepCond c c a fuel a₁ s₁ hs)
        exact hfold v.ancestors _ hmark
    · have h0 := List.find?_some hv
      have he1 : e.1 = a := by simpa using h0
      have hemem : e ∈ vshape vs := List.mem_of_find?_eq_some hv
      have hba : b < a := he1 ▸ hwf e hemem b hb
      have hm : ((markDepCond c a vs).find? (fun w => w.num = a)).map
          (fun w => (w.num, w.ancestors)) = some e := by
        rw [← find?_vshape, vshape_markDepCond, hv]
      obtain ⟨v₁, hm2, hve⟩ := Option.map_eq_some'.mp hm
      have hanc : v₁.ancestors = e.2 := congrArg Prod.snd hve
      simp only [addDepCond]
      rw [hm2]
      apply mem_depsOf_foldl_apply c u fuel b v₁.ancestors
        (markDepCond c a vs) (by rw [hanc]; exact hb)
      intro s₁ hs₁
      have hsv : vshape s₁ = vshape vs :=
        hs₁.trans (vshape_markDepCond c a vs)
      apply ih b u s₁
      · rw [hsv]; exact hwf
      · rw [hsv]; exact hr
      · omega
      · rw [hsv]; exact hfind

/-- C2 (amended): when a `ConditionNode` is created, the propagation over
its `ancestors` records the condition in `v.dependent_conditions` for
every store vertex `v` in the *reflexive ancestor-closure of the
condition's own ancestors* (each root, its ancestors, their ancestors,
and so on) — not, as the spec claims, for every vertex whose
ancestor-closure contains an ancestor of the condition: the recursion
walks `ancestors` edges downwards from the condition's ancestors and
never visits later vertices that merely point back at them.  The
hypotheses are the creation-order invariant the compiler maintains and
fuel exceeding the roots (the source passes the condition's own counter,
which is larger than every ancestor's). -/
theorem claim_C2_theorem (c : Nat) (cAnc : List Nat) (fuel : Nat)
    (vs : List VertexData) (a u : Nat)
    (hwf : ShapeWf (vshape vs))
    (ha : a ∈ cAnc)
    (hfuel : ∀ b ∈ cAnc, b < fuel)
    (hreach : ReachesAnc (vshape vs) a u)
    (hu : ((vshape vs).find? (fun p => p.1 = u)).isSome) :
    c ∈ depsOf (condPropagate c fuel cAnc vs) u := by
  unfold condPropagate
  apply mem_depsOf_foldl_apply c u fuel a cAnc vs ha
  intro s₁ hs₁
  apply addDepCond_reaches c fuel a u s₁
  · rw [hs₁]; exact hwf
  · rw [hs₁]; exact hreach
  · exact hfuel a ha
  · rw [hs₁]; exact hu

/-- Witness for the amended C2 on a concrete two-vertex store
`{x1 (no ancestors), x2 (ancestor x1)}`: condition `3` with ancestor set
`{x2}` propagates into the dependent conditions of `x1`, reached through
the `x2 → x1` ancestor edge. -/
theorem claim_C2_witness :
    ShapeWf (vshape
      [{ num := 1, observed := false, ancestors := [], conditions := [],
         depConds := [] },
       { num := 2, observed := false, ancestors := [1], conditions := [],
         depConds := [] }])
    ∧ 2 ∈ [2]
    ∧ (∀ b ∈ [2], b < 3)
    ∧ 3 ∈ depsOf (condPropagate 3 3 [2]
        [{ num := 1, observed := false, ancestors := [], conditions := [],
           depConds := [] },
         { num := 2, observed := false, ancestors := [1], conditions := [],
           depConds := [] }]) 1 :=
  ⟨by unfold ShapeWf; decide, by decide, by decide,
   claim_C2_theorem 3 [2] 3
     [{ num := 1, observed := false, ancestors := [], conditions := [],
        depConds := [] },
      { num := 2, observed := false, ancestors := [1], conditions := [],
        depConds := [] }] 2 1
     (by unfold ShapeWf; decide) (by decide) (by decide)
     (ReachesAnc.step 2 1 1 (2, [1]) (by decide)
       (List.mem_singleton.mpr rfl) (ReachesAnc.refl 1))
     (by decide)⟩
